import Mathlib

/-!
# Verification of the Exam-Helper document ingestion / test generation engine

Shallow embedding of the core pipeline of the Exam-Helper backend:

* `backend/app/services/ai_service.py` — question generation fallback,
  LLM-response validation, answer evaluation;
* `backend/app/services/text_processor.py` — semantic chunker;
* `backend/app/services/material_service.py` — ingestion orchestration and
  `embedding_status` lifecycle;
* `backend/app/services/test_service.py` — per-material question generation.

Python strings that the code inspects character by character are modelled as
`List Char`; strings that are only carried around verbatim stay `String`.
The short-answer keyword thresholds `len(keywords)*0.7` and
`len(keywords)*0.4` are modelled bit-exactly as IEEE-754 double products
(`pyFloat07`, `pyFloat04`); the remaining float literals (`0.5`, `0.8`,
`0.3`, and the long-answer tier multipliers), whose exercised comparisons
are float-exact or ordering-only, are modelled as the corresponding
rationals.  The NLTK sentence
tokenizer (`sent_tokenize`) is external to the repository; the chunker is
therefore embedded as a function of the sentence list it produces, and
claims about "any input text" are stated relative to that abstraction.
-/

namespace ExamHelper

/-- Whitespace characters recognised by Python's `str.strip` / `str.split`
for the ASCII texts this pipeline handles. -/
def isWsChar (c : Char) : Bool :=
  c = ' ' || c = '\t' || c = '\n' || c = '\r' || c = '\x0b' || c = '\x0c'

/-- `str.strip()` of a Python string is empty iff every character is
whitespace; this models the `if not student_answer.strip()` guards. -/
def isBlank (cs : List Char) : Bool :=
  cs.all isWsChar

/-- Python's `str.lower()` (per-character ASCII lowering). -/
def lowerStr (cs : List Char) : List Char :=
  cs.map Char.toLower

/-- Python's `needle in haystack` substring test. -/
def containsSub (needle hay : List Char) : Bool :=
  hay.tails.any (fun t => needle.isPrefixOf t)

/-- Python's `str.split()` with no argument: maximal runs of
non-whitespace characters, all whitespace discarded.  `acc` holds the
(reversed) word currently being read. -/
def splitWsAux : List Char → List Char → List (List Char)
  | [], acc => if acc.isEmpty then [] else [acc.reverse]
  | c :: cs, acc =>
    if isWsChar c then
      if acc.isEmpty then splitWsAux cs [] else acc.reverse :: splitWsAux cs []
    else splitWsAux cs (c :: acc)

def splitWs (cs : List Char) : List (List Char) :=
  splitWsAux cs []

/-- Python's `" ".join(parts)`: the parts concatenated with a single
space between consecutive parts. -/
def joinSpace : List (List Char) → List Char
  | [] => []
  | [p] => p
  | p :: ps => p ++ ' ' :: joinSpace ps

/-- The non-whitespace characters of a string, in order. -/
def nonWs (cs : List Char) : List Char :=
  cs.filter (fun c => !isWsChar c)

theorem nonWs_append (xs ys : List Char) :
    nonWs (xs ++ ys) = nonWs xs ++ nonWs ys :=
  List.filter_append ..

theorem nonWs_cons_ws (c : Char) (cs : List Char) (h : isWsChar c) :
    nonWs (c :: cs) = nonWs cs := by
  simp [nonWs, List.filter_cons, h]

theorem nonWs_cons_not_ws (c : Char) (cs : List Char) (h : isWsChar c = false) :
    nonWs (c :: cs) = c :: nonWs cs := by
  simp [nonWs, List.filter_cons, h]

theorem splitWsAux_no_ws (cs : List Char) :
    ∀ acc, (∀ c ∈ acc, isWsChar c = false) →
      ∀ w ∈ splitWsAux cs acc, ∀ c ∈ w, isWsChar c = false := by
  induction cs with
  | nil =>
    intro acc hacc w hw
    rw [splitWsAux] at hw
    split at hw
    · simp at hw
    · rw [List.mem_singleton] at hw
      subst hw
      intro c hc
      exact hacc c (List.mem_reverse.mp hc)
  | cons c cs ih =>
    intro acc hacc w hw
    rw [splitWsAux] at hw
    split at hw
    · split at hw
      · exact ih [] (by simp) w hw
      · rcases List.mem_cons.mp hw with hw | hw
        · subst hw
          intro d hd
          exact hacc d (List.mem_reverse.mp hd)
        · exact ih [] (by simp) w hw
    · refine ih (c :: acc) ?_ w hw
      intro d hd
      rcases List.mem_cons.mp hd with hd | hd
      · subst hd
        next h => exact Bool.of_not_eq_true h
      · exact hacc d hd

theorem splitWsAux_ne_nil (cs : List Char) :
    ∀ acc, ∀ w ∈ splitWsAux cs acc, w ≠ [] := by
  induction cs with
  | nil =>
    intro acc w hw
    rw [splitWsAux] at hw
    split at hw
    · simp at hw
    · rw [List.mem_singleton] at hw
      subst hw
      next h =>
        simp only [List.isEmpty_eq_true] at h
        simpa using h
  | cons c cs ih =>
    intro acc w hw
    rw [splitWsAux] at hw
    split at hw
    · split at hw
      · exact ih [] w hw
      · rcases List.mem_cons.mp hw with hw | hw
        · subst hw
          next h =>
            simp only [List.isEmpty_eq_true] at h
            simpa using h
        · exact ih [] w hw
    · exact ih (c :: acc) w hw

theorem splitWsAux_flatten (cs : List Char) :
    ∀ acc, (splitWsAux cs acc).flatten = acc.reverse ++ nonWs cs := by
  induction cs with
  | nil =>
    intro acc
    rw [splitWsAux]
    split
    · next h =>
      rw [List.isEmpty_eq_true] at h
      subst h
      simp [nonWs]
    · simp [nonWs]
  | cons c cs ih =>
    intro acc
    rw [splitWsAux]
    by_cases hc : isWsChar c
    · rw [if_pos hc]
      split
      · next h =>
        rw [List.isEmpty_eq_true] at h
        subst h
        rw [ih [], nonWs_cons_ws c cs hc]
      · rw [List.flatten_cons, ih [], nonWs_cons_ws c cs hc]
        simp
    · rw [if_neg hc]
      have hc' : isWsChar c = false := Bool.of_not_eq_true hc
      rw [ih (c :: acc), nonWs_cons_not_ws c cs hc']
      simp

/-- Every word produced by `splitWs` is free of whitespace characters. -/
theorem splitWs_no_ws (cs : List Char) :
    ∀ w ∈ splitWs cs, ∀ c ∈ w, isWsChar c = false :=
  splitWsAux_no_ws cs [] (by simp)

/-- Every word produced by `splitWs` is non-empty. -/
theorem splitWs_ne_nil (cs : List Char) :
    ∀ w ∈ splitWs cs, w ≠ [] :=
  splitWsAux_ne_nil cs []

/-- Splitting on whitespace and concatenating back recovers exactly the
non-whitespace characters of the input, in order. -/
theorem join_splitWs (cs : List Char) :
    (splitWs cs).flatten = nonWs cs := by
  rw [splitWs, splitWsAux_flatten cs []]
  rfl

/-! ## Answer evaluator (`AIService.evaluate_answer`) -/

/-- One entry of a question's `choices` list. -/
structure MCQChoice where
  text : String
  is_correct : Bool
deriving DecidableEq, Repr

/-- The question dictionary as consumed by `AIService.evaluate_answer`.
Fields the evaluator reads through `question.get(key, default)` are stored
with an `Option` exactly when the applied default differs between call
sites (`points` defaults to `1` for mcq/short answers and `3` for long
answers); fields defaulted to `''`/`[]` are stored with that default
already applied. -/
structure EvalQuestion where
  question_type : String
  choices : List MCQChoice := []
  points : Option ℚ := none
  explanation : String := ""
  /-- `question.get('correct_answer', '')`, as a character list. -/
  correct_answer : List Char := []
  /-- `question.get('key_points', [])`, each key point as a character list. -/
  key_points : List (List Char) := []
deriving DecidableEq, Repr

/-- Floor of the base-2 logarithm, by structural recursion on a fuel
argument (`natLog2 n` uses fuel `n`, which suffices). -/
def log2fuel : Nat → Nat → Nat
  | 0, _ => 0
  | fuel + 1, n => if n ≥ 2 then log2fuel fuel (n / 2) + 1 else 0

def natLog2 (n : Nat) : Nat :=
  log2fuel n n

/-- Round-to-nearest, ties-to-even IEEE-754 double product `n * (M / 2^k)`
of a Python `int` `n` with a double whose exact value is `M / 2^k`,
returned as the numerator of the result over `2^k`.  The exact product
`n*M / 2^k` is rounded to 53 significant bits.  Faithful to CPython for
`n < 2^53` (where the `int → float` conversion of `n` is exact) and
results below the overflow threshold — astronomically beyond any keyword
count this code can see. -/
def pyMulDouble (M k n : Nat) : Nat :=
  if n = 0 then 0
  else
    let num := n * M
    let b := natLog2 num
    if b ≤ 52 then num
    else
      let sh := b - 52
      let q := num / 2 ^ sh
      let r := num % 2 ^ sh
      (if 2 * r < 2 ^ sh then q
       else if 2 ^ sh < 2 * r then q + 1
       else if q % 2 = 0 then q else q + 1) * 2 ^ sh

/-- The exact value of the Python float expression `n * 0.7`: the IEEE
double closest to `0.7` is `3152519739159347 / 2^52`, and the product is
rounded once.  E.g. `pyFloat07 10 = 7` exactly, while
`pyFloat07 90 < 63` (Python's `90*0.7 == 62.99999999999999`). -/
def pyFloat07 (n : Nat) : ℚ :=
  (pyMulDouble 3152519739159347 52 n : ℚ) / 2 ^ 52

/-- The exact value of the Python float expression `n * 0.4`: the IEEE
double closest to `0.4` is `3602879701896397 / 2^53`. -/
def pyFloat04 (n : Nat) : ℚ :=
  (pyMulDouble 3602879701896397 53 n : ℚ) / 2 ^ 53

/-- The stop words removed from the expected answer by the short-answer
keyword heuristic. -/
def stopWords : List (List Char) :=
  [['a'], ['a','n'], ['t','h','e'], ['a','n','d'], ['o','r'], ['b','u','t'],
   ['i','n'], ['o','n'], ['a','t']]

/-- `set(correct_answer.split()) - {stop words}`: the deduplicated
non-stop-word keywords of the (already lowercased) expected answer. -/
def shortKeywords (correctAnswerLower : List Char) : List (List Char) :=
  (splitWs correctAnswerLower).dedup.filter (fun w => ¬ w ∈ stopWords)

/-- The enumerate-and-compare loop of the mcq branch: find the choice whose
0-based index, rendered with `str`, equals the submitted answer string. -/
def findChoice (ans : List Char) : Nat → List MCQChoice → Option MCQChoice
  | _, [] => none
  | i, c :: rest =>
    if ans = (Nat.repr i).data then some c else findChoice ans (i + 1) rest

/-- Shallow embedding of `AIService.evaluate_answer`.  `hasApiKey` models
`bool(self.api_key)`; the returned triple is `(is_correct, points_awarded,
feedback)`.  The short-answer thresholds are the bit-exact IEEE double
products `pyFloat07`/`pyFloat04`; the remaining score fractions (`0.5`,
`0.8`, `0.3`) are modelled as rationals. -/
def evaluate_answer (hasApiKey : Bool) (q : EvalQuestion) (ans : List Char) :
    Bool × ℚ × String :=
  if q.question_type = "mcq" then
    match findChoice ans 0 q.choices with
    | some choice =>
      if choice.is_correct then
        (true, q.points.getD 1, "Correct! " ++ q.explanation)
      else
        (false, 0, "Incorrect. " ++ q.explanation)
    | none => (false, 0, "Invalid choice selection.")
  else if q.question_type = "short_answer" then
    if isBlank ans then (false, 0, "No answer provided.")
    else if ¬ hasApiKey then
      let keywords := shortKeywords (lowerStr q.correct_answer)
      let ansLower := lowerStr ans
      let matched := (keywords.filter (fun w => containsSub w ansLower)).length
      if (matched : ℚ) > pyFloat07 keywords.length then
        (true, q.points.getD 1, "Good answer!")
      else if (matched : ℚ) > pyFloat04 keywords.length then
        (true, q.points.getD 1 * (1/2), "Partially correct.")
      else
        (false, 0, "Incorrect answer.")
    else
      (true, q.points.getD 1 * (8/10), "Answer evaluated (AI grading not yet implemented).")
  else if q.question_type = "long_answer" then
    if isBlank ans then (false, 0, "No answer provided.")
    else
      let pointsCovered :=
        (q.key_points.filter (fun p => containsSub (lowerStr p) (lowerStr ans))).length
      let coverageRatio : ℚ :=
        if q.key_points.length ≠ 0 then (pointsCovered : ℚ) / q.key_points.length else 0
      if coverageRatio ≥ 8/10 then
        (true, q.points.getD 3, "Excellent answer covering most key points.")
      else if coverageRatio ≥ 5/10 then
        (true, q.points.getD 3 * (7/10), "Good answer covering some key points.")
      else if coverageRatio > 0 then
        (true, q.points.getD 3 * (3/10), "Partial answer with few key points.")
      else
        (false, 0, "Answer does not cover any key points.")
  else
    (false, 0, "Unable to evaluate this answer type.")

/-! ### The string form of a choice index contains no whitespace -/

theorem isWsChar_digitChar (n : Nat) : isWsChar (Nat.digitChar n) = false := by
  match n with
  | 0 | 1 | 2 | 3 | 4 | 5 | 6 | 7 | 8 | 9 | 10 | 11 | 12 | 13 | 14 | 15 => decide
  | n + 16 =>
    unfold Nat.digitChar
    repeat rw [if_neg (by omega)]
    decide

theorem toDigitsCore_no_ws (fuel n : Nat) (acc : List Char)
    (hacc : ∀ c ∈ acc, isWsChar c = false) :
    ∀ c ∈ Nat.toDigitsCore 10 fuel n acc, isWsChar c = false := by
  induction fuel generalizing n acc with
  | zero => simpa [Nat.toDigitsCore] using hacc
  | succ fuel ih =>
    intro c hc
    rw [Nat.toDigitsCore] at hc
    by_cases h : n / 10 = 0
    · rw [if_pos h] at hc
      rcases List.mem_cons.mp hc with hc | hc
      · subst hc; exact isWsChar_digitChar _
      · exact hacc c hc
    · rw [if_neg h] at hc
      refine ih (n / 10) (Nat.digitChar (n % 10) :: acc) ?_ c hc
      intro d hd
      rcases List.mem_cons.mp hd with hd | hd
      · subst hd; exact isWsChar_digitChar _
      · exact hacc d hd

theorem toDigitsCore_ne_nil (fuel n : Nat) (acc : List Char)
    (hacc : acc = [] → fuel ≠ 0) :
    Nat.toDigitsCore 10 fuel n acc ≠ [] := by
  induction fuel generalizing n acc with
  | zero =>
    intro h
    rw [Nat.toDigitsCore] at h
    exact hacc h rfl
  | succ fuel ih =>
    rw [Nat.toDigitsCore]
    by_cases h : n / 10 = 0
    · rw [if_pos h]; simp
    · rw [if_neg h]
      exact ih (n / 10) _ (by simp)

/-- The rendering `str(i)` of a choice index is never empty and contains no
whitespace. -/
theorem repr_not_blank (i : Nat) : isBlank ((Nat.repr i).data) = false := by
  have hne : (Nat.repr i).data ≠ [] := by
    show Nat.toDigitsCore 10 (i + 1) i [] ≠ []
    exact toDigitsCore_ne_nil (i + 1) i [] (by simp)
  have hws : ∀ c ∈ (Nat.repr i).data, isWsChar c = false := by
    show ∀ c ∈ Nat.toDigitsCore 10 (i + 1) i [], isWsChar c = false
    exact toDigitsCore_no_ws (i + 1) i [] (by simp)
  cases hd : (Nat.repr i).data with
  | nil => exact absurd hd hne
  | cons c cs =>
    have : isWsChar c = false := hws c (by rw [hd]; simp)
    simp [isBlank, List.all_cons, this]

/-- A blank (empty or all-whitespace) submitted answer never matches any
rendered choice index, so the mcq scan falls through. -/
theorem findChoice_blank (ans : List Char) (hb : isBlank ans = true) :
    ∀ i choices, findChoice ans i choices = none := by
  intro i choices
  induction choices generalizing i with
  | nil => rfl
  | cons c rest ih =>
    rw [findChoice]
    have hne : ans ≠ (Nat.repr i).data := by
      intro h
      rw [h] at hb
      rw [repr_not_blank i] at hb
      exact Bool.false_ne_true hb
    rw [if_neg hne]
    exact ih (i + 1)

/-! ### Lowercasing and substring facts -/

theorem toNat_ofNat_valid (n : Nat) (h : n.isValidChar) : (Char.ofNat n).toNat = n := by
  rw [Char.ofNat, dif_pos h]
  rfl

theorem toNat_le_of_isWsChar (d : Char) (h : isWsChar d = true) : d.toNat ≤ 32 := by
  simp only [isWsChar, Bool.or_eq_true, decide_eq_true_eq] at h
  rcases h with ((((h | h) | h) | h) | h) | h <;> subst h <;> decide

/-- ASCII lowercasing maps whitespace to whitespace and non-whitespace to
non-whitespace. -/
theorem isWsChar_toLower (c : Char) : isWsChar (Char.toLower c) = isWsChar c := by
  unfold Char.toLower
  simp only []
  split_ifs with h
  · obtain ⟨h1, h2⟩ := h
    have hv : (Char.toNat c + 32).isValidChar := Or.inl (by omega)
    have ht : (Char.ofNat (Char.toNat c + 32)).toNat = Char.toNat c + 32 :=
      toNat_ofNat_valid _ hv
    have hws : isWsChar (Char.ofNat (Char.toNat c + 32)) = false := by
      by_contra hx
      have := toNat_le_of_isWsChar _ (by simpa using hx)
      omega
    have hws' : isWsChar c = false := by
      by_contra hx
      have := toNat_le_of_isWsChar c (by simpa using hx)
      omega
    rw [hws, hws']
  · rfl

theorem isBlank_lowerStr (cs : List Char) : isBlank (lowerStr cs) = isBlank cs := by
  induction cs with
  | nil => rfl
  | cons c cs ih =>
    simp only [lowerStr, List.map_cons, isBlank, List.all_cons] at *
    rw [isWsChar_toLower, ih]

/-- `containsSub` is exactly the infix relation. -/
theorem containsSub_spec (w h : List Char) :
    containsSub w h = true ↔ w <:+: h := by
  unfold containsSub
  rw [List.any_eq_true]
  constructor
  · rintro ⟨t, ht, hp⟩
    have hsuf : t <:+ h := (List.mem_tails t h).mp ht
    have hpre : w <+: t := List.isPrefixOf_iff_prefix.mp hp
    exact hpre.isInfix.trans hsuf.isInfix
  · intro hinf
    obtain ⟨s, t, hst⟩ := hinf
    refine ⟨w ++ t, ?_, ?_⟩
    · exact (List.mem_tails _ h).mpr ⟨s, by rw [← hst, List.append_assoc]⟩
    · exact List.isPrefixOf_iff_prefix.mpr ⟨t, rfl⟩

/-- If a string is entirely whitespace, so is every substring match found
inside it. -/
theorem isBlank_of_containsSub (w h : List Char) (hc : containsSub w h = true)
    (hb : isBlank h = true) : isBlank w = true := by
  obtain ⟨s, t, hst⟩ := (containsSub_spec w h).mp hc
  subst hst
  simp only [isBlank, List.all_append, Bool.and_eq_true, List.all_eq_true] at hb ⊢
  intro c hcw
  exact hb.1.2 c hcw

/-! ## Blank answers -/

/-- How `evaluate_answer` treats an empty or whitespace-only answer, by
question type: the short/long branches short-circuit, the mcq branch falls
through its choice scan. -/
theorem evaluate_answer_blank (k : Bool) (q : EvalQuestion) (ans : List Char)
    (hb : isBlank ans = true) :
    ((q.question_type = "short_answer" ∨ q.question_type = "long_answer") →
      evaluate_answer k q ans = (false, 0, "No answer provided.")) ∧
    (q.question_type = "mcq" →
      evaluate_answer k q ans = (false, 0, "Invalid choice selection.")) := by
  constructor
  · rintro (ht | ht)
    · rw [evaluate_answer, if_neg (by rw [ht]; decide), if_pos ht, if_pos hb]
    · rw [evaluate_answer, if_neg (by rw [ht]; decide), if_neg (by rw [ht]; decide),
          if_pos ht, if_pos hb]
  · intro ht
    rw [evaluate_answer, if_pos ht, findChoice_blank ans hb 0 q.choices]

/-! ## Claim C2: blank answers -/

/-- The mcq question used to exhibit the missing blank-answer guard. -/
def mcqBlankQ : EvalQuestion :=
  { question_type := "mcq"
    choices := [⟨"Option A", true⟩, ⟨"Option B", false⟩,
                ⟨"Option C", false⟩, ⟨"Option D", false⟩]
    points := some 1 }

/-- C2 counterexample: for an mcq question, a whitespace-only student answer
does **not** short-circuit to `(false, 0, "No answer provided.")` — the mcq
branch has no blank-answer guard and falls through to
`"Invalid choice selection."`. -/
theorem C2_counterexample :
    isBlank [' '] = true ∧
    evaluate_answer false mcqBlankQ [' '] = (false, 0, "Invalid choice selection.") ∧
    "Invalid choice selection." ≠ "No answer provided." := by
  refine ⟨by decide, ?_, by decide⟩
  have h := findChoice_blank [' '] (by decide) 0 mcqBlankQ.choices
  have hq : mcqBlankQ.question_type = "mcq" := rfl
  rw [evaluate_answer, if_pos hq, h]

/-- C2 (amended): an empty or whitespace-only student answer yields
`(false, 0, "No answer provided.")` for `short_answer` and `long_answer`
questions, but an mcq question returns `(false, 0, "Invalid choice
selection.")` because its branch matches the answer against rendered choice
indices before any blank check. -/
theorem C2_blank_answer (k : Bool) (q : EvalQuestion) (ans : List Char)
    (hb : isBlank ans = true) :
    ((q.question_type = "short_answer" ∨ q.question_type = "long_answer") →
      evaluate_answer k q ans = (false, 0, "No answer provided.")) ∧
    (q.question_type = "mcq" →
      evaluate_answer k q ans = (false, 0, "Invalid choice selection.")) :=
  evaluate_answer_blank k q ans hb

/-- Witness for `C2_blank_answer` at a concrete short-answer question and
the empty answer. -/
theorem C2_blank_answer_witness :
    evaluate_answer false
      { question_type := "short_answer", correct_answer := ['o','k'], points := some 1 }
      [] = (false, 0, "No answer provided.") :=
  (C2_blank_answer false _ [] (by decide)).1 (Or.inl rfl)

/-! ## Claim C1: short-answer keyword tiers -/

theorem log2fuel_spec :
    ∀ fuel n, 1 ≤ n → n ≤ fuel →
      2 ^ log2fuel fuel n ≤ n ∧ n < 2 ^ (log2fuel fuel n + 1) := by
  intro fuel
  induction fuel with
  | zero => intro n h1 h2; omega
  | succ fuel ih =>
    intro n h1 h2
    rw [log2fuel]
    by_cases h : n ≥ 2
    · rw [if_pos h]
      have hrec := ih (n / 2) (by omega) (by omega)
      have e1 : 2 ^ (log2fuel fuel (n / 2) + 1) = 2 ^ log2fuel fuel (n / 2) * 2 :=
        pow_succ 2 _
      have e2 : 2 ^ (log2fuel fuel (n / 2) + 1 + 1) =
          2 ^ (log2fuel fuel (n / 2) + 1) * 2 := pow_succ 2 _
      omega
    · rw [if_neg h]
      simp only [pow_zero, pow_one, zero_add]
      omega

theorem natLog2_spec (n : Nat) (h : 1 ≤ n) :
    2 ^ natLog2 n ≤ n ∧ n < 2 ^ (natLog2 n + 1) :=
  log2fuel_spec n n h le_rfl

/-- Core bound for round-to-nearest with ties: rounding `num = A + r` to a
multiple of `P = 2*P1` moves it by at most `P1`, and `P1 * 2^53 = B ≤ num`,
so the absolute rounding error times `2^53` is at most `num`. -/
theorem roundHalf_close (P P1 B num A r s : ℕ)
    (hA : A + r = num) (hr : r < P) (hP : P1 * 2 = P)
    (hPB : P1 * 9007199254740992 = B) (hB : B ≤ num)
    (hs : (2 * r ≤ P ∧ s = A) ∨ (P ≤ 2 * r ∧ s = A + P)) :
    s * 9007199254740992 ≤ num * 9007199254740992 + num ∧
    num * 9007199254740992 ≤ s * 9007199254740992 + num := by
  rcases hs with ⟨hle, rfl⟩ | ⟨hge, rfl⟩ <;> constructor <;> omega

/-- The rounded product is within a relative `2^-53` of the exact product:
`|pyMulDouble M k n − n*M| * 2^53 ≤ n*M`. -/
theorem pyMulDouble_close (M k n : Nat) (hn : 1 ≤ n) (hM : 1 ≤ M) :
    pyMulDouble M k n * 2 ^ 53 ≤ n * M * 2 ^ 53 + n * M ∧
    n * M * 2 ^ 53 ≤ pyMulDouble M k n * 2 ^ 53 + n * M := by
  have h53 : (2 : ℕ) ^ 53 = 9007199254740992 := by norm_num
  rw [pyMulDouble, if_neg (by omega)]
  simp only
  have hnum1 : 1 ≤ n * M := Nat.mul_pos hn hM
  obtain ⟨hlow, _⟩ := natLog2_spec (n * M) hnum1
  by_cases hb52 : natLog2 (n * M) ≤ 52
  · rw [if_pos hb52, h53]
    omega
  · rw [if_neg hb52]
    have hsh1 : 1 ≤ natLog2 (n * M) - 52 := by omega
    have hdm : n * M / 2 ^ (natLog2 (n * M) - 52) * 2 ^ (natLog2 (n * M) - 52) +
        n * M % 2 ^ (natLog2 (n * M) - 52) = n * M := Nat.div_add_mod' ..
    have hmod : n * M % 2 ^ (natLog2 (n * M) - 52) < 2 ^ (natLog2 (n * M) - 52) :=
      Nat.mod_lt _ (by positivity)
    have hP : 2 ^ (natLog2 (n * M) - 52 - 1) * 2 = 2 ^ (natLog2 (n * M) - 52) := by
      rw [← pow_succ]
      congr 1
      omega
    have hPB : 2 ^ (natLog2 (n * M) - 52 - 1) * 9007199254740992 =
        2 ^ natLog2 (n * M) := by
      rw [← h53, ← pow_add]
      congr 1
      omega
    rw [h53]
    split_ifs with h1 h2 h3
    · exact roundHalf_close _ _ _ _ _ _ _ hdm hmod hP hPB hlow
        (Or.inl ⟨by omega, rfl⟩)
    · have hexp : (n * M / 2 ^ (natLog2 (n * M) - 52) + 1) *
          2 ^ (natLog2 (n * M) - 52) =
          n * M / 2 ^ (natLog2 (n * M) - 52) * 2 ^ (natLog2 (n * M) - 52) +
          2 ^ (natLog2 (n * M) - 52) := by ring
      rw [hexp]
      exact roundHalf_close _ _ _ _ _ _ _ hdm hmod hP hPB hlow
        (Or.inr ⟨by omega, rfl⟩)
    · exact roundHalf_close _ _ _ _ _ _ _ hdm hmod hP hPB hlow
        (Or.inl ⟨by omega, rfl⟩)
    · have hexp : (n * M / 2 ^ (natLog2 (n * M) - 52) + 1) *
          2 ^ (natLog2 (n * M) - 52) =
          n * M / 2 ^ (natLog2 (n * M) - 52) * 2 ^ (natLog2 (n * M) - 52) +
          2 ^ (natLog2 (n * M) - 52) := by ring
      rw [hexp]
      exact roundHalf_close _ _ _ _ _ _ _ hdm hmod hP hPB hlow
        (Or.inr ⟨by omega, rfl⟩)

theorem pyMulDouble_err (M k n : Nat) (hn : 1 ≤ n) (hM : 1 ≤ M) :
    (n : ℚ) * M - (n : ℚ) * M / 2 ^ 53 ≤ (pyMulDouble M k n : ℚ) ∧
    (pyMulDouble M k n : ℚ) ≤ (n : ℚ) * M + (n : ℚ) * M / 2 ^ 53 := by
  obtain ⟨key1, key2⟩ := pyMulDouble_close M k n hn hM
  have c1 : (pyMulDouble M k n : ℚ) * 2 ^ 53 ≤
      (n : ℚ) * M * 2 ^ 53 + (n : ℚ) * M := by exact_mod_cast key1
  have c2 : (n : ℚ) * M * 2 ^ 53 ≤
      (pyMulDouble M k n : ℚ) * 2 ^ 53 + (n : ℚ) * M := by exact_mod_cast key2
  constructor <;> linarith

/-- The double product `n * 0.7` lies within `n/2^52` of the exact `0.7·n`. -/
theorem pyFloat07_bounds (n : Nat) (hn : 1 ≤ n) :
    (7 / 10 : ℚ) * n - n / 2 ^ 52 ≤ pyFloat07 n ∧
    pyFloat07 n ≤ (7 / 10 : ℚ) * n + n / 2 ^ 52 := by
  obtain ⟨e1, e2⟩ := pyMulDouble_err 3152519739159347 52 n hn (by norm_num)
  have hn0 : (0 : ℚ) ≤ n := by positivity
  have hlo : ((7 : ℚ) / 10 * 2 ^ 52 - 1) * n ≤
      (n : ℚ) * 3152519739159347 - (n : ℚ) * 3152519739159347 / 2 ^ 53 := by
    have hcon : ((7 : ℚ) / 10 * 2 ^ 52 - 1) ≤
        (3152519739159347 : ℚ) - 3152519739159347 / 2 ^ 53 := by norm_num
    nlinarith [mul_le_mul_of_nonneg_right hcon hn0]
  have hhi : (n : ℚ) * 3152519739159347 + (n : ℚ) * 3152519739159347 / 2 ^ 53 ≤
      ((7 : ℚ) / 10 * 2 ^ 52 + 1) * n := by
    have hcon : (3152519739159347 : ℚ) + 3152519739159347 / 2 ^ 53 ≤
        (7 : ℚ) / 10 * 2 ^ 52 + 1 := by norm_num
    nlinarith [mul_le_mul_of_nonneg_right hcon hn0]
  rw [pyFloat07]
  constructor
  · rw [le_div_iff (by positivity)]
    nlinarith [e1, hlo]
  · rw [div_le_iff (by positivity)]
    nlinarith [e2, hhi]

/-- The double product `n * 0.4` lies within `n/2^52` of the exact `0.4·n`. -/
theorem pyFloat04_bounds (n : Nat) (hn : 1 ≤ n) :
    (2 / 5 : ℚ) * n - n / 2 ^ 52 ≤ pyFloat04 n ∧
    pyFloat04 n ≤ (2 / 5 : ℚ) * n + n / 2 ^ 52 := by
  obtain ⟨e1, e2⟩ := pyMulDouble_err 3602879701896397 53 n hn (by norm_num)
  have hn0 : (0 : ℚ) ≤ n := by positivity
  have hlo : ((2 : ℚ) / 5 * 2 ^ 53 - 2) * n ≤
      (n : ℚ) * 3602879701896397 - (n : ℚ) * 3602879701896397 / 2 ^ 53 := by
    have hcon : ((2 : ℚ) / 5 * 2 ^ 53 - 2) ≤
        (3602879701896397 : ℚ) - 3602879701896397 / 2 ^ 53 := by norm_num
    nlinarith [mul_le_mul_of_nonneg_right hcon hn0]
  have hhi : (n : ℚ) * 3602879701896397 + (n : ℚ) * 3602879701896397 / 2 ^ 53 ≤
      ((2 : ℚ) / 5 * 2 ^ 53 + 2) * n := by
    have hcon : (3602879701896397 : ℚ) + 3602879701896397 / 2 ^ 53 ≤
        (2 : ℚ) / 5 * 2 ^ 53 + 2 := by norm_num
    nlinarith [mul_le_mul_of_nonneg_right hcon hn0]
  rw [pyFloat04]
  constructor
  · rw [le_div_iff (by positivity)]
    nlinarith [e1, hlo]
  · rw [div_le_iff (by positivity)]
    nlinarith [e2, hhi]

/-- The number of non-stop-word keywords of a question's expected answer. -/
def keywordCount (q : EvalQuestion) : ℕ :=
  (shortKeywords (lowerStr q.correct_answer)).length

/-- The number of those keywords found (case-insensitive substring) in the
student's answer. -/
def matchedCount (q : EvalQuestion) (ans : List Char) : ℕ :=
  ((shortKeywords (lowerStr q.correct_answer)).filter
    (fun w => containsSub w (lowerStr ans))).length

/-- Unfolds the keyword-heuristic branch of `evaluate_answer` (short-answer
question, non-blank answer, no API key configured). -/
theorem evaluate_answer_short_eval (q : EvalQuestion) (ans : List Char)
    (htype : q.question_type = "short_answer") (hans : isBlank ans = false) :
    evaluate_answer false q ans =
      (if (matchedCount q ans : ℚ) > pyFloat07 (keywordCount q) then
        (true, q.points.getD 1, "Good answer!")
       else if (matchedCount q ans : ℚ) > pyFloat04 (keywordCount q) then
        (true, q.points.getD 1 * (1/2), "Partially correct.")
       else (false, 0, "Incorrect answer.")) := by
  rw [evaluate_answer, if_neg (by rw [htype]; decide), if_pos htype,
      if_neg (by simp [hans]), if_pos (by simp)]
  rfl

/-- A short-answer question whose expected answer has ten distinct
non-stop-word keywords. -/
def shortBoundaryQ : EvalQuestion :=
  { question_type := "short_answer"
    correct_answer := "b c d e f g h i j k".data
    points := some 1 }

/-- A short-answer question whose expected answer has ninety distinct
non-stop-word keywords. -/
def shortBoundary90Q : EvalQuestion :=
  { question_type := "short_answer"
    correct_answer := ("bb bc bd bf bg bh bj bk bl bm cb cc cd cf cg ch cj ck cl cm " ++
      "db dc dd df dg dh dj dk dl dm fb fc fd ff fg fh fj fk fl fm " ++
      "gb gc gd gf gg gh gj gk gl gm hb hc hd hf hg hh hj hk hl hm " ++
      "jb jc jd jf jg jh jj jk jl jm kb kc kd kf kg kh kj kk kl km " ++
      "lb lc ld lf lg lh lj lk ll lm").data
    points := some 1 }

/-- An answer containing exactly 63 of `shortBoundary90Q`'s 90 keywords. -/
def answer63 : List Char :=
  ("bb bc bd bf bg bh bj bk bl bm cb cc cd cf cg ch cj ck cl cm " ++
   "db dc dd df dg dh dj dk dl dm fb fc fd ff fg fh fj fk fl fm " ++
   "gb gc gd gf gg gh gj gk gl gm hb hc hd hf hg hh hj hk hl hm " ++
   "jb jc jd").data

set_option maxRecDepth 16384 in
/-- C1 counterexample: the claimed inclusive `0.7` boundary fails — with
ten keywords and exactly seven matched (coverage exactly `0.7`), Python's
`7 > 10*0.7` is false (`10*0.7` rounds to exactly `7.0`) and the evaluator
awards half points, not the claimed full points.  The boundary is not
uniformly exclusive either: with ninety keywords and exactly sixty-three
matched (coverage exactly `0.7` again), `90*0.7` rounds *below* `63`
(Python's `62.99999999999999`) and the evaluator awards full points.  The
award at the exact boundary depends on the IEEE rounding of
`len(keywords)*0.7`. -/
theorem C1_counterexample :
    ((matchedCount shortBoundaryQ "b c d e f g h".data : ℚ) =
      (keywordCount shortBoundaryQ : ℚ) * (7/10) ∧
     evaluate_answer false shortBoundaryQ "b c d e f g h".data =
      (true, 1/2, "Partially correct.") ∧
     (1/2 : ℚ) ≠ shortBoundaryQ.points.getD 1) ∧
    ((matchedCount shortBoundary90Q answer63 : ℚ) =
      (keywordCount shortBoundary90Q : ℚ) * (7/10) ∧
     evaluate_answer false shortBoundary90Q answer63 =
      (true, 1, "Good answer!")) := by
  have e1 : matchedCount shortBoundaryQ "b c d e f g h".data = 7 := by decide
  have e2 : keywordCount shortBoundaryQ = 10 := by decide
  have p7 : pyMulDouble 3152519739159347 52 10 = 31525197391593472 := by decide
  have p4 : pyMulDouble 3602879701896397 53 10 = 36028797018963968 := by decide
  have e1d : matchedCount shortBoundary90Q answer63 = 63 := by decide
  have e2d : keywordCount shortBoundary90Q = 90 := by decide
  have p7d : pyMulDouble 3152519739159347 52 90 = 283726776524341216 := by decide
  refine ⟨⟨?_, ?_, ?_⟩, ?_, ?_⟩
  · rw [e1, e2]; norm_num
  · rw [evaluate_answer_short_eval shortBoundaryQ _ rfl (by decide), e1, e2,
        pyFloat07, pyFloat04, p7, p4]
    have hpts : shortBoundaryQ.points.getD 1 = 1 := rfl
    rw [hpts]
    norm_num
  · have hpts : shortBoundaryQ.points.getD 1 = 1 := rfl
    rw [hpts]
    norm_num
  · rw [e1d, e2d]; norm_num
  · rw [evaluate_answer_short_eval shortBoundary90Q _ rfl (by decide), e1d, e2d,
        pyFloat07, p7d]
    have hpts : shortBoundary90Q.points.getD 1 = 1 := rfl
    rw [hpts]
    norm_num

/-- C1 (amended): under the source's IEEE-754 arithmetic (the thresholds
are the double products `len(keywords)*0.7` and `len(keywords)*0.4`), for
a short-answer question with between `1` and `2^48` keywords and no
grading service configured: coverage strictly above `0.7` earns full
points, coverage strictly between `0.4` and `0.7` earns half points, and
coverage strictly below `0.4` earns zero.  At coverage exactly `0.7` (or
exactly `0.4`) the award depends on the rounding of the double product and
is not uniform in the keyword count (see `C1_counterexample`: 7 of 10
keywords earns half points while 63 of 90 earns full points). -/
theorem C1_short_answer_tiers (q : EvalQuestion) (ans : List Char)
    (htype : q.question_type = "short_answer")
    (hans : isBlank ans = false)
    (hkw : 0 < keywordCount q)
    (hbound : keywordCount q ≤ 2 ^ 48) :
    ((7:ℚ)/10 < (matchedCount q ans : ℚ) / (keywordCount q : ℚ) →
      evaluate_answer false q ans = (true, q.points.getD 1, "Good answer!")) ∧
    ((matchedCount q ans : ℚ) / (keywordCount q : ℚ) < 7/10 →
      (2:ℚ)/5 < (matchedCount q ans : ℚ) / (keywordCount q : ℚ) →
      evaluate_answer false q ans =
        (true, q.points.getD 1 * (1/2), "Partially correct.")) ∧
    ((matchedCount q ans : ℚ) / (keywordCount q : ℚ) < 2/5 →
      evaluate_answer false q ans = (false, 0, "Incorrect answer.")) := by
  have hkey := evaluate_answer_short_eval q ans htype hans
  have hnQ : (0:ℚ) < (keywordCount q : ℚ) := by exact_mod_cast hkw
  have hn0 : (0:ℚ) ≤ (keywordCount q : ℚ) := le_of_lt hnQ
  have hbQ : (keywordCount q : ℚ) ≤ 2 ^ 48 := by exact_mod_cast hbound
  have hmargin : (keywordCount q : ℚ) / 2 ^ 52 ≤ 1/16 := by linarith
  obtain ⟨lo7, hi7⟩ := pyFloat07_bounds (keywordCount q) hkw
  obtain ⟨lo4, hi4⟩ := pyFloat04_bounds (keywordCount q) hkw
  refine ⟨?_, ?_, ?_⟩
  · intro hcov
    have hq1 : (7:ℚ)/10 * (keywordCount q : ℚ) < (matchedCount q ans : ℚ) :=
      (lt_div_iff hnQ).mp hcov
    have hn1 : 7 * keywordCount q < 10 * matchedCount q ans := by
      have : (7:ℚ) * (keywordCount q : ℚ) < 10 * (matchedCount q ans : ℚ) := by
        linarith
      exact_mod_cast this
    have hq2 : (7:ℚ) * (keywordCount q : ℚ) + 1 ≤ 10 * (matchedCount q ans : ℚ) := by
      have : 7 * keywordCount q + 1 ≤ 10 * matchedCount q ans := by omega
      exact_mod_cast this
    have hgt : (matchedCount q ans : ℚ) > pyFloat07 (keywordCount q) := by
      linarith
    rw [hkey, if_pos hgt]
  · intro hcov1 hcov2
    have hq1 : (matchedCount q ans : ℚ) < (7:ℚ)/10 * (keywordCount q : ℚ) :=
      (div_lt_iff hnQ).mp hcov1
    have hn1 : 10 * matchedCount q ans < 7 * keywordCount q := by
      have : (10:ℚ) * (matchedCount q ans : ℚ) < 7 * (keywordCount q : ℚ) := by
        linarith
      exact_mod_cast this
    have hq2 : (10:ℚ) * (matchedCount q ans : ℚ) + 1 ≤ 7 * (keywordCount q : ℚ) := by
      have : 10 * matchedCount q ans + 1 ≤ 7 * keywordCount q := by omega
      exact_mod_cast this
    have hle7 : ¬ ((matchedCount q ans : ℚ) > pyFloat07 (keywordCount q)) := by
      rw [not_lt]
      linarith
    have hq3 : (2:ℚ)/5 * (keywordCount q : ℚ) < (matchedCount q ans : ℚ) :=
      (lt_div_iff hnQ).mp hcov2
    have hn2 : 2 * keywordCount q < 5 * matchedCount q ans := by
      have : (2:ℚ) * (keywordCount q : ℚ) < 5 * (matchedCount q ans : ℚ) := by
        linarith
      exact_mod_cast this
    have hq4 : (2:ℚ) * (keywordCount q : ℚ) + 1 ≤ 5 * (matchedCount q ans : ℚ) := by
      have : 2 * keywordCount q + 1 ≤ 5 * matchedCount q ans := by omega
      exact_mod_cast this
    have hgt4 : (matchedCount q ans : ℚ) > pyFloat04 (keywordCount q) := by
      linarith
    rw [hkey, if_neg hle7, if_pos hgt4]
  · intro hcov
    have hq1 : (matchedCount q ans : ℚ) < (2:ℚ)/5 * (keywordCount q : ℚ) :=
      (div_lt_iff hnQ).mp hcov
    have hn1 : 5 * matchedCount q ans < 2 * keywordCount q := by
      have : (5:ℚ) * (matchedCount q ans : ℚ) < 2 * (keywordCount q : ℚ) := by
        linarith
      exact_mod_cast this
    have hq2 : (5:ℚ) * (matchedCount q ans : ℚ) + 1 ≤ 2 * (keywordCount q : ℚ) := by
      have : 5 * matchedCount q ans + 1 ≤ 2 * keywordCount q := by omega
      exact_mod_cast this
    have hsmall : (keywordCount q : ℚ) / 2 ^ 52 ≤ 3/10 * (keywordCount q : ℚ) := by
      linarith
    have hle7 : ¬ ((matchedCount q ans : ℚ) > pyFloat07 (keywordCount q)) := by
      rw [not_lt]
      linarith
    have hle4 : ¬ ((matchedCount q ans : ℚ) > pyFloat04 (keywordCount q)) := by
      rw [not_lt]
      linarith
    rw [hkey, if_neg hle7, if_neg hle4]

/-- The short-answer question used as witness input for the amended C1. -/
def shortFullQ : EvalQuestion :=
  { question_type := "short_answer", correct_answer := "b c".data, points := some 1 }

/-- Witness for `C1_short_answer_tiers`: both keywords present, coverage
`1 > 0.7`, full point awarded. -/
theorem C1_short_answer_tiers_witness :
    evaluate_answer false shortFullQ "b c".data = (true, 1, "Good answer!") := by
  have e1 : matchedCount shortFullQ "b c".data = 2 := by decide
  have e2 : keywordCount shortFullQ = 2 := by decide
  have hcov : (7:ℚ)/10 <
      (matchedCount shortFullQ "b c".data : ℚ) / (keywordCount shortFullQ : ℚ) := by
    rw [e1, e2]
    norm_num
  have h := (C1_short_answer_tiers shortFullQ "b c".data rfl (by decide)
      (by rw [e2]; norm_num) (by rw [e2]; norm_num)).1 hcov
  have hpts : shortFullQ.points.getD 1 = 1 := rfl
  rw [h, hpts]

/-! ## Claim C10: long-answer questions with no key points -/

/-- A long-answer question whose `key_points` metadata is empty/absent. -/
def longNoKeyPointsQ : EvalQuestion :=
  { question_type := "long_answer", points := some 3 }

/-- C10 counterexample: the whitespace-only answer `" "` is a non-empty
string, yet the evaluator returns `"No answer provided."` (the blank guard
fires first), not the claimed `"Answer does not cover any key points."`. -/
theorem C10_counterexample :
    ([' '] : List Char) ≠ [] ∧
    evaluate_answer false longNoKeyPointsQ [' '] = (false, 0, "No answer provided.") ∧
    "No answer provided." ≠ "Answer does not cover any key points." := by
  refine ⟨by decide, by decide, by decide⟩

/-- C10 (amended): for a long-answer question with an empty or absent
key-point list, the guarded coverage ratio defaults to `0` and every answer
containing a non-whitespace character is scored
`(false, 0, "Answer does not cover any key points.")`; a whitespace-only
answer instead short-circuits to `(false, 0, "No answer provided.")`. -/
theorem C10_long_answer_no_key_points (k : Bool) (q : EvalQuestion) (ans : List Char)
    (htype : q.question_type = "long_answer")
    (hkp : q.key_points = []) :
    (isBlank ans = false →
      evaluate_answer k q ans = (false, 0, "Answer does not cover any key points.")) ∧
    (isBlank ans = true →
      evaluate_answer k q ans = (false, 0, "No answer provided.")) := by
  constructor
  · intro hans
    rw [evaluate_answer, if_neg (by rw [htype]; decide), if_neg (by rw [htype]; decide),
        if_pos htype, if_neg (by simp [hans])]
    simp only [hkp, List.filter_nil, List.length_nil]
    norm_num
  · intro hans
    exact (evaluate_answer_blank k q ans hans).1 (Or.inr htype)

/-- Witness for `C10_long_answer_no_key_points` at a concrete input. -/
theorem C10_long_answer_no_key_points_witness :
    evaluate_answer true longNoKeyPointsQ ['x'] =
      (false, 0, "Answer does not cover any key points.") :=
  (C10_long_answer_no_key_points true longNoKeyPointsQ ['x'] rfl rfl).1 (by decide)

/-! ## Claim C9: long-answer score monotonicity -/

/-- Unfolds the key-point branch of `evaluate_answer` (long-answer question,
non-blank answer) in terms of the covered count `c`, key-point count `n`,
and guarded coverage ratio `r`. -/
theorem evaluate_answer_long_eval (k : Bool) (q : EvalQuestion) (ans : List Char)
    (htype : q.question_type = "long_answer") (hans : isBlank ans = false)
    (c n : ℕ) (r : ℚ)
    (hc : (q.key_points.filter (fun p => containsSub (lowerStr p) (lowerStr ans))).length = c)
    (hn : q.key_points.length = n)
    (hr : r = if n ≠ 0 then (c : ℚ) / n else 0) :
    evaluate_answer k q ans =
      (if r ≥ 8/10 then (true, q.points.getD 3, "Excellent answer covering most key points.")
       else if r ≥ 5/10 then
         (true, q.points.getD 3 * (7/10), "Good answer covering some key points.")
       else if r > 0 then
         (true, q.points.getD 3 * (3/10), "Partial answer with few key points.")
       else (false, 0, "Answer does not cover any key points.")) := by
  subst hc hn hr
  rw [evaluate_answer, if_neg (by rw [htype]; decide), if_neg (by rw [htype]; decide),
      if_pos htype, if_neg (by simp [hans])]

/-- Filtering with a pointwise-weaker predicate yields at most as many
elements. -/
theorem filter_length_mono {α : Type} (l : List α) (p q : α → Bool)
    (h : ∀ a ∈ l, p a = true → q a = true) :
    (l.filter p).length ≤ (l.filter q).length := by
  induction l with
  | nil => simp
  | cons a l ih =>
    have ih' := ih (fun b hb => h b (List.mem_cons_of_mem a hb))
    rw [List.filter_cons, List.filter_cons]
    by_cases hp : p a = true
    · rw [if_pos hp, if_pos (h a (List.mem_cons_self a l) hp)]
      simpa using ih'
    · rw [if_neg hp]
      split
      · exact Nat.le_succ_of_le ih'
      · exact ih'

/-- With a nonnegative point value, the long-answer branch never awards
negative points. -/
theorem evaluate_long_award_nonneg (k : Bool) (q : EvalQuestion) (ans : List Char)
    (htype : q.question_type = "long_answer") (hpts : 0 ≤ q.points.getD 3) :
    0 ≤ (evaluate_answer k q ans).2.1 := by
  by_cases hb : isBlank ans = true
  · rw [(evaluate_answer_blank k q ans hb).1 (Or.inr htype)]
  · rw [evaluate_answer_long_eval k q ans htype (by simpa using hb) _ _ _ rfl rfl rfl]
    have h7 : 0 ≤ q.points.getD 3 * (7/10) :=
      mul_nonneg hpts (by norm_num)
    have h3 : 0 ≤ q.points.getD 3 * (3/10) :=
      mul_nonneg hpts (by norm_num)
    split_ifs <;> dsimp only <;> linarith

/-- A long-answer question carrying a negative point value. -/
def longNegQ : EvalQuestion :=
  { question_type := "long_answer", key_points := [['b']], points := some (-3) }

/-- C9 counterexample: with a negative point value, the answer matching a
superset of key points (`"b"` matches the only key point, `"z"` matches
none) is awarded strictly fewer points (`-3 < 0`). -/
theorem C9_counterexample :
    (∀ p ∈ longNegQ.key_points,
       containsSub (lowerStr p) (lowerStr ['z']) = true →
       containsSub (lowerStr p) (lowerStr ['b']) = true) ∧
    (evaluate_answer false longNegQ ['b']).2.1 <
      (evaluate_answer false longNegQ ['z']).2.1 := by
  constructor
  · decide
  · have e1 := evaluate_answer_long_eval false longNegQ ['b'] rfl (by decide)
      1 1 1 (by decide) (by decide) (by norm_num)
    have e2 := evaluate_answer_long_eval false longNegQ ['z'] rfl (by decide)
      0 1 0 (by decide) (by decide) (by norm_num)
    rw [e1, e2]
    have hpts : longNegQ.points.getD 3 = -3 := rfl
    rw [hpts]
    norm_num

/-- C9 (amended): for a long-answer question with a non-empty key-point
list in which every key point contains a non-whitespace character, and a
nonnegative point value, if the set of key points matched (case-insensitive
substring) by the second answer is a superset of those matched by the
first, the second answer is awarded at least as many points. -/
theorem C9_long_answer_monotone (k : Bool) (q : EvalQuestion) (a1 a2 : List Char)
    (htype : q.question_type = "long_answer")
    (hne : q.key_points ≠ [])
    (hpts : 0 ≤ q.points.getD 3)
    (hkp : ∀ p ∈ q.key_points, isBlank p = false)
    (hsub : ∀ p ∈ q.key_points,
       containsSub (lowerStr p) (lowerStr a1) = true →
       containsSub (lowerStr p) (lowerStr a2) = true) :
    (evaluate_answer k q a1).2.1 ≤ (evaluate_answer k q a2).2.1 := by
  by_cases hb2 : isBlank a2 = true
  · have e2 : evaluate_answer k q a2 = (false, 0, "No answer provided.") :=
      (evaluate_answer_blank k q a2 hb2).1 (Or.inr htype)
    by_cases hb1 : isBlank a1 = true
    · have e1 : evaluate_answer k q a1 = (false, 0, "No answer provided.") :=
        (evaluate_answer_blank k q a1 hb1).1 (Or.inr htype)
      rw [e1, e2]
    · have hc1 : (q.key_points.filter
          (fun p => containsSub (lowerStr p) (lowerStr a1))).length = 0 := by
        rw [List.length_eq_zero, List.filter_eq_nil]
        intro p hp hmatch
        have h2 := hsub p hp hmatch
        have hba2 : isBlank (lowerStr a2) = true := by
          rw [isBlank_lowerStr]; exact hb2
        have hbp : isBlank (lowerStr p) = true :=
          isBlank_of_containsSub _ _ h2 hba2
        rw [isBlank_lowerStr, hkp p hp] at hbp
        exact Bool.false_ne_true hbp
      have e1 := evaluate_answer_long_eval k q a1 htype (by simpa using hb1)
        0 q.key_points.length 0 hc1 rfl (by simp)
      rw [e1, e2]
      norm_num
  · by_cases hb1 : isBlank a1 = true
    · have e1 : evaluate_answer k q a1 = (false, 0, "No answer provided.") :=
        (evaluate_answer_blank k q a1 hb1).1 (Or.inr htype)
      rw [e1]
      exact evaluate_long_award_nonneg k q a2 htype hpts
    · have hnn : q.key_points.length ≠ 0 := by
        have := List.length_pos.mpr hne
        omega
      have hc12 : (q.key_points.filter
            (fun p => containsSub (lowerStr p) (lowerStr a1))).length ≤
          (q.key_points.filter
            (fun p => containsSub (lowerStr p) (lowerStr a2))).length :=
        filter_length_mono _ _ _ hsub
      have hnpos : (0 : ℚ) < q.key_points.length := by
        exact_mod_cast Nat.pos_of_ne_zero hnn
      have hr12 : ((q.key_points.filter
            (fun p => containsSub (lowerStr p) (lowerStr a1))).length : ℚ) /
              q.key_points.length ≤
          ((q.key_points.filter
            (fun p => containsSub (lowerStr p) (lowerStr a2))).length : ℚ) /
              q.key_points.length := by
        apply div_le_div_of_nonneg_right ?_ hnpos.le
        exact_mod_cast hc12
      have e1 := evaluate_answer_long_eval k q a1 htype (by simpa using hb1)
        _ _ (((q.key_points.filter
            (fun p => containsSub (lowerStr p) (lowerStr a1))).length : ℚ) /
              q.key_points.length) rfl rfl (by rw [if_pos hnn])
      have e2 := evaluate_answer_long_eval k q a2 htype (by simpa using hb2)
        _ _ (((q.key_points.filter
            (fun p => containsSub (lowerStr p) (lowerStr a2))).length : ℚ) /
              q.key_points.length) rfl rfl (by rw [if_pos hnn])
      rw [e1, e2]
      have h37 : q.points.getD 3 * (3/10) ≤ q.points.getD 3 * (7/10) :=
        mul_le_mul_of_nonneg_left (by norm_num) hpts
      have h7p : q.points.getD 3 * (7/10) ≤ q.points.getD 3 := by
        nlinarith
      have h30 : 0 ≤ q.points.getD 3 * (3/10) := mul_nonneg hpts (by norm_num)
      split_ifs <;> dsimp only <;> linarith

/-- Witness for `C9_long_answer_monotone`: answer `"a b"` matches a superset
of the key points matched by `"b"` and earns at least as many points. -/
theorem C9_long_answer_monotone_witness :
    (evaluate_answer false
      { question_type := "long_answer", key_points := [['a'], ['b']], points := some 3 }
      ['b']).2.1 ≤
    (evaluate_answer false
      { question_type := "long_answer", key_points := [['a'], ['b']], points := some 3 }
      ['a', ' ', 'b']).2.1 :=
  C9_long_answer_monotone false
    { question_type := "long_answer", key_points := [['a'], ['b']], points := some 3 }
    ['b'] ['a', ' ', 'b'] rfl (by decide) (by norm_num) (by decide) (by decide)

/-! ## Claim C6: LLM-response validation (`AIService._parse_questions`) -/

/-- One parsed item of the LLM's JSON array, as inspected by the validation
loop of `_parse_questions`: which keys are present, and the values the loop
reads. -/
structure ParsedItem where
  /-- `'question_text' in q` -/
  has_question_text : Bool
  /-- `'question_type' in q`, together with `q['question_type']` when present. -/
  question_type : Option String
  /-- `'choices' in q`, together with `q.get('choices', [])` when present. -/
  choices : Option (List MCQChoice)
  /-- `'correct_answer' in q` -/
  has_correct_answer : Bool
  /-- `'key_points' in q` -/
  has_key_points : Bool
deriving DecidableEq, Repr

/-- The per-item acceptance test of the validation loop. -/
def acceptItem (q : ParsedItem) : Bool :=
  match q.question_type with
  | none => false
  | some t =>
    q.has_question_text &&
    (if t = "mcq" then
       match q.choices with
       | some cs => cs.any (fun c => c.is_correct)
       | none => false
     else if t = "short_answer" ∨ t = "long_answer" then
       q.has_correct_answer || q.has_key_points
     else false)

/-- The validation stage of `_parse_questions`: items failing the acceptance
test are dropped, accepted items are kept unchanged and in order. -/
def validatedQuestions (items : List ParsedItem) : List ParsedItem :=
  items.filter acceptItem

theorem acceptItem_iff (q : ParsedItem) :
    acceptItem q = true ↔
      q.has_question_text = true ∧
      ∃ t, q.question_type = some t ∧
        ((t = "mcq" ∧ ∃ cs, q.choices = some cs ∧ cs.any (fun c => c.is_correct) = true) ∨
         ((t = "short_answer" ∨ t = "long_answer") ∧
           (q.has_correct_answer = true ∨ q.has_key_points = true))) := by
  cases hq : q.question_type with
  | none => simp [acceptItem, hq]
  | some t =>
    simp only [acceptItem, hq, Bool.and_eq_true]
    constructor
    · rintro ⟨hqt, hbody⟩
      refine ⟨hqt, t, rfl, ?_⟩
      by_cases hm : t = "mcq"
      · rw [if_pos hm] at hbody
        cases hc : q.choices with
        | none => rw [hc] at hbody; exact absurd hbody (by simp)
        | some cs =>
          rw [hc] at hbody
          exact Or.inl ⟨hm, cs, rfl, hbody⟩
      · rw [if_neg hm] at hbody
        by_cases hs : t = "short_answer" ∨ t = "long_answer"
        · rw [if_pos hs] at hbody
          rw [Bool.or_eq_true] at hbody
          exact Or.inr ⟨hs, hbody⟩
        · rw [if_neg hs] at hbody
          exact absurd hbody (by simp)
    · rintro ⟨hqt, t', ht', hrest⟩
      have ht : t' = t := (Option.some_injective _ ht').symm
      subst ht
      refine ⟨hqt, ?_⟩
      rcases hrest with ⟨hm, cs, hcs, hany⟩ | ⟨hs, hor⟩
      · rw [if_pos hm, hcs]
        exact hany
      · have hm : ¬ t' = "mcq" := by
          rcases hs with hs | hs <;> subst hs <;> decide
        rw [if_neg hm, if_pos hs, Bool.or_eq_true]
        exact hor

/-- A parsed `short_answer` item that carries only a `key_points` field. -/
def shortWithKeyPointsOnly : ParsedItem :=
  { has_question_text := true
    question_type := some "short_answer"
    choices := none
    has_correct_answer := false
    has_key_points := true }

/-- C6 counterexample: a `short_answer` item with a key-points field and
**no** model-answer field is nevertheless accepted, because the source
checks `'correct_answer' in q or 'key_points' in q` for both free-text
types, not "respectively". -/
theorem C6_counterexample :
    validatedQuestions [shortWithKeyPointsOnly] = [shortWithKeyPointsOnly] ∧
    shortWithKeyPointsOnly.question_type = some "short_answer" ∧
    shortWithKeyPointsOnly.has_correct_answer = false := by
  decide

/-- C6 (amended): validation accepts an item iff it has `question_text` and
`question_type` and, per type: an `mcq` item iff it has a `choices` list
with at least one choice flagged correct; a `short_answer` or `long_answer`
item iff it carries a model-answer field **or** a key-points field (either
field satisfies either type); every other item is absent from the returned
list. -/
theorem C6_validation (items : List ParsedItem) (q : ParsedItem) :
    q ∈ validatedQuestions items ↔
      q ∈ items ∧ q.has_question_text = true ∧
      ∃ t, q.question_type = some t ∧
        ((t = "mcq" ∧ ∃ cs, q.choices = some cs ∧ cs.any (fun c => c.is_correct) = true) ∨
         ((t = "short_answer" ∨ t = "long_answer") ∧
           (q.has_correct_answer = true ∨ q.has_key_points = true))) := by
  rw [validatedQuestions, List.mem_filter, acceptItem_iff]

/-! ## Claim C7: fallback question generation -/

/-- A generated question record, with the fields the fallback templates
populate. -/
structure GenQ where
  question_text : String
  question_type : String
  choices : List MCQChoice := []
  correct_answer : String := ""
  key_points : List String := []
  evaluation_criteria : String := ""
  explanation : String := ""
  difficulty : String := "medium"
deriving DecidableEq, Repr

/-- The canned mcq fallback question. -/
def fallbackMcq : GenQ :=
  { question_text := "What is the main topic of this material?"
    question_type := "mcq"
    choices := [⟨"Option A", true⟩, ⟨"Option B", false⟩,
                ⟨"Option C", false⟩, ⟨"Option D", false⟩]
    explanation := "This is a sample question. The AI failed to generate proper questions." }

/-- The canned short-answer fallback question. -/
def fallbackShort : GenQ :=
  { question_text := "Summarize the key points from this material."
    question_type := "short_answer"
    correct_answer := "A good answer would include the main points from the material."
    explanation := "This is a sample question. The AI failed to generate proper questions." }

/-- The canned long-answer fallback question. -/
def fallbackLong : GenQ :=
  { question_text := "Analyze the significance of the concepts presented in this material."
    question_type := "long_answer"
    key_points := ["Main concept", "Supporting details", "Applications or implications"]
    evaluation_criteria := "A good answer should analyze the main concepts and their significance." }

/-- The initial fallback list built by the three type-conditional appends of
`_generate_fallback_questions`. -/
def fallbackBase (test_type : String) : List GenQ :=
  (if test_type = "mcq" ∨ test_type = "mixed" then [fallbackMcq] else []) ++
  (if test_type = "short_answer" ∨ test_type = "mixed" then [fallbackShort] else []) ++
  (if test_type = "long_answer" ∨ test_type = "mixed" then [fallbackLong] else [])

/-- The `while len(fallback_questions) < num_questions` fill loop.
`random.choice` is modelled by an arbitrary index source `rand`, reduced
modulo the list length; `random.choice([])` raises in Python, here the
empty case returns `[]` (unreachable for the supported test types). -/
def fillFallback (rand : Nat → Nat) (num : Nat) : List GenQ → Nat → List GenQ
  | [], _ => []
  | q0 :: rest, step =>
    if h : (q0 :: rest).length < num then
      fillFallback rand num
        ((q0 :: rest) ++ [(q0 :: rest).getD (rand step % (q0 :: rest).length) q0])
        (step + 1)
    else q0 :: rest
termination_by qs _ => num - qs.length
decreasing_by
  simp only [List.length_append, List.length_cons, List.length_nil] at h ⊢
  omega

/-- `AIService._generate_fallback_questions`. -/
def generateFallbackQuestions (rand : Nat → Nat) (test_type : String) (num : Nat) :
    List GenQ :=
  (fillFallback rand num (fallbackBase test_type) 0).take num

/-- Python's `str.strip()`. -/
def stripWs (cs : List Char) : List Char :=
  ((cs.dropWhile isWsChar).reverse.dropWhile isWsChar).reverse

/-- Shallow embedding of `AIService.generate_questions`: the two `raise`
preconditions, then the `try` whose network call and parsing are modelled
by `outcome`; any exception there is caught and answered with the fallback
set. -/
def generate_questions (rand : Nat → Nat) (hasApiKey : Bool)
    (materialText : List Char) (outcome : Except Unit (List GenQ))
    (test_type : String) (num : Nat) : Except String (List GenQ) :=
  if ¬ hasApiKey then
    .error "AI service not configured. Set the TOGETHER_API_KEY environment variable."
  else if materialText.isEmpty ∨ (stripWs materialText).length < 100 then
    .error "Insufficient material content for question generation."
  else
    match outcome with
    | .ok qs => .ok qs
    | .error _ => .ok (generateFallbackQuestions rand test_type num)

/-- The question types admissible for a requested `test_type`. -/
def typeFamily (test_type : String) : List String :=
  if test_type = "mixed" then ["mcq", "short_answer", "long_answer"]
  else [test_type]

theorem getD_mem_of_lt {α : Type} (l : List α) (i : Nat) (d : α) (h : i < l.length) :
    l.getD i d ∈ l := by
  rw [List.getD_eq_getElem?_getD, List.getElem?_eq_getElem h]
  exact List.getElem_mem ..

theorem fillFallback_all (P : GenQ → Prop) (rand : Nat → Nat) (num : Nat) :
    ∀ qs step, (∀ q ∈ qs, P q) → ∀ q ∈ fillFallback rand num qs step, P q := by
  intro qs step
  induction qs, step using fillFallback.induct rand num with
  | case1 step =>
    intro _ q hq
    rw [fillFallback] at hq
    simp at hq
  | case2 q0 rest step h ih =>
    intro hqs q hq
    rw [fillFallback, dif_pos h] at hq
    refine ih ?_ q hq
    intro q' hq'
    rcases List.mem_append.mp hq' with hq' | hq'
    · exact hqs q' hq'
    · rw [List.mem_singleton] at hq'
      subst hq'
      refine hqs _ (getD_mem_of_lt _ _ _ ?_)
      exact Nat.mod_lt _ (by simp)
  | case3 q0 rest step h =>
    intro hqs q hq
    rw [fillFallback, dif_neg h] at hq
    exact hqs q hq

theorem fillFallback_length (rand : Nat → Nat) (num : Nat) :
    ∀ qs step, qs ≠ [] → num ≤ (fillFallback rand num qs step).length := by
  intro qs step
  induction qs, step using fillFallback.induct rand num with
  | case1 step =>
    intro hne
    exact absurd rfl hne
  | case2 q0 rest step h ih =>
    intro _
    rw [fillFallback, dif_pos h]
    exact ih (by simp)
  | case3 q0 rest step h =>
    intro _
    rw [fillFallback, dif_neg h]
    omega

/-- C7 (as claimed): when the API key is present, the material passes the
100-character precondition, at least one question is requested, and the
network/parse stage fails, `generate_questions` catches the exception and
returns the fallback set, which is non-empty and contains only questions of
the requested `test_type` family. -/
theorem C7_fallback_on_failure (rand : Nat → Nat) (materialText : List Char)
    (test_type : String) (num : Nat)
    (hmat : 100 ≤ (stripWs materialText).length)
    (hnum : 1 ≤ num)
    (htt : test_type = "mcq" ∨ test_type = "short_answer" ∨
           test_type = "long_answer" ∨ test_type = "mixed") :
    generate_questions rand true materialText (.error ()) test_type num =
      .ok (generateFallbackQuestions rand test_type num) ∧
    generateFallbackQuestions rand test_type num ≠ [] ∧
    ∀ q ∈ generateFallbackQuestions rand test_type num,
      q.question_type ∈ typeFamily test_type := by
  have hbase_ne : fallbackBase test_type ≠ [] := by
    rcases htt with h | h | h | h <;> subst h <;> decide
  have hbase_ty : ∀ q ∈ fallbackBase test_type, q.question_type ∈ typeFamily test_type := by
    rcases htt with h | h | h | h <;> subst h <;> decide
  refine ⟨?_, ?_, ?_⟩
  · rw [generate_questions, if_neg (by simp)]
    rw [if_neg ?_]
    intro hor
    rcases hor with he | hlt
    · rw [List.isEmpty_eq_true] at he
      subst he
      simp [stripWs] at hmat
    · omega
  · rw [generateFallbackQuestions]
    have hlen := fillFallback_length rand num (fallbackBase test_type) 0 hbase_ne
    have : (List.take num (fillFallback rand num (fallbackBase test_type) 0)).length = num := by
      rw [List.length_take]
      omega
    intro hnil
    rw [hnil] at this
    simp at this
    omega
  · intro q hq
    rw [generateFallbackQuestions] at hq
    have hq' := List.take_subset num _ hq
    exact fillFallback_all _ rand num (fallbackBase test_type) 0 hbase_ty q hq'

/-- Witness for `C7_fallback_on_failure` at a concrete failing request. -/
theorem C7_fallback_on_failure_witness :
    generate_questions (fun _ => 0) true (List.replicate 100 'a') (.error ()) "mcq" 2 =
      .ok (generateFallbackQuestions (fun _ => 0) "mcq" 2) ∧
    generateFallbackQuestions (fun _ => 0) "mcq" 2 ≠ [] ∧
    ∀ q ∈ generateFallbackQuestions (fun _ => 0) "mcq" 2,
      q.question_type ∈ typeFamily "mcq" :=
  C7_fallback_on_failure (fun _ => 0) (List.replicate 100 'a') "mcq" 2
    (by decide) (by decide) (Or.inl rfl)

/-! ## Claim C8: per-material question generation
(`TestService.generate_questions_from_materials`) -/

/-- The environment one loop iteration observes for a single requested
material id: whether the Material row exists, the extracted content, the
generator's outcome, and at which question index (if any) `_save_question`
raises. -/
structure MatGenEnv where
  found : Bool
  content : List Char
  genOutcome : Except Unit (List GenQ)
  saveFailAt : Option Nat

/-- One iteration of the material loop: the generator requests it makes
(`num_questions` argument values), the number of `total_questions`
increments, and the questions actually persisted.  A missing material or
empty content is skipped; a generator exception or a mid-save exception is
caught by the `except` block and the loop continues. -/
def processMaterial (quota : Nat) (m : MatGenEnv) : List Nat × Nat × List GenQ :=
  if ¬ m.found then ([], 0, [])
  else if m.content.isEmpty then ([], 0, [])
  else
    match m.genOutcome with
    | .error _ => ([quota], 0, [])
    | .ok qs =>
      match m.saveFailAt with
      | none => ([quota], qs.length, qs)
      | some k => ([quota], min k qs.length, qs.take k)

/-- The material loop, accumulating requests, the `total_questions`
counter, and the persisted questions. -/
def runGenAux (quota : Nat) : List MatGenEnv → List Nat × Nat × List GenQ
  | [] => ([], 0, [])
  | m :: rest =>
    ((processMaterial quota m).1 ++ (runGenAux quota rest).1,
     (processMaterial quota m).2.1 + (runGenAux quota rest).2.1,
     (processMaterial quota m).2.2 ++ (runGenAux quota rest).2.2)

/-- Shallow embedding of `TestService.generate_questions_from_materials`:
`testFound` models the initial Test lookup (the only `raise` in the
function); the returned triple is (generator requests, the
`total_questions` value written to the Test, persisted questions). -/
def generate_questions_from_materials (testFound : Bool) (numQuestions : Nat)
    (mats : List MatGenEnv) : Except String (List Nat × Nat × List GenQ) :=
  if ¬ testFound then .error "Test not found"
  else
    let quota := max 1 (numQuestions / mats.length)
    .ok (runGenAux quota mats)

theorem processMaterial_requests (quota : Nat) (m : MatGenEnv) :
    (processMaterial quota m).1 =
      if (m.found && !m.content.isEmpty) = true then [quota] else [] := by
  obtain ⟨found, content, gen, sfa⟩ := m
  cases gen with
  | error e =>
    rw [processMaterial]
    split_ifs <;> first | rfl | simp_all
  | ok qs =>
    cases sfa with
    | none =>
      rw [processMaterial]
      split_ifs <;> first | rfl | simp_all
    | some k =>
      rw [processMaterial]
      split_ifs <;> first | rfl | simp_all

theorem processMaterial_count (quota : Nat) (m : MatGenEnv) :
    (processMaterial quota m).2.1 = (processMaterial quota m).2.2.length := by
  obtain ⟨found, content, gen, sfa⟩ := m
  cases gen with
  | error e =>
    rw [processMaterial]
    split_ifs <;> rfl
  | ok qs =>
    cases sfa with
    | none =>
      rw [processMaterial]
      split_ifs <;> rfl
    | some k =>
      rw [processMaterial]
      split_ifs <;> simp [List.length_take]

theorem runGenAux_requests (quota : Nat) (mats : List MatGenEnv) :
    ∀ r ∈ (runGenAux quota mats).1, r = quota := by
  induction mats with
  | nil => intro r hr; simp [runGenAux] at hr
  | cons m rest ih =>
    intro r hr
    simp only [runGenAux] at hr
    rcases List.mem_append.mp hr with hr | hr
    · rw [processMaterial_requests] at hr
      split at hr
      · rw [List.mem_singleton] at hr; exact hr
      · simp at hr
    · exact ih r hr

theorem runGenAux_requests_length (quota : Nat) (mats : List MatGenEnv) :
    (runGenAux quota mats).1.length =
      (mats.filter (fun m => m.found && !m.content.isEmpty)).length := by
  induction mats with
  | nil => simp [runGenAux]
  | cons m rest ih =>
    simp only [runGenAux, List.length_append, List.filter_cons, ih,
      processMaterial_requests]
    split
    · simp [Nat.add_comm]
    · simp

theorem runGenAux_total (quota : Nat) (mats : List MatGenEnv) :
    (runGenAux quota mats).2.1 = (runGenAux quota mats).2.2.length := by
  induction mats with
  | nil => simp [runGenAux]
  | cons m rest ih =>
    simp only [runGenAux, List.length_append, ih, processMaterial_count]

/-- C8 (as claimed): over a non-empty material list the per-material quota
is `max 1 (requestedTotal / materialCount)` for every generator call; the
whole loop returns normally (`ok`, no exception escapes a per-material
failure) and makes one generator call per found-with-content material
regardless of other materials' failures; and the Test's `total_questions`
equals exactly the number of questions actually persisted. -/
theorem C8_per_material_generation (numQuestions : Nat) (mats : List MatGenEnv)
    (hne : mats ≠ []) :
    ∃ reqs total persisted,
      generate_questions_from_materials true numQuestions mats =
        .ok (reqs, total, persisted) ∧
      (∀ r ∈ reqs, r = max 1 (numQuestions / mats.length)) ∧
      reqs.length = (mats.filter (fun m => m.found && !m.content.isEmpty)).length ∧
      total = persisted.length := by
  refine ⟨(runGenAux (max 1 (numQuestions / mats.length)) mats).1,
          (runGenAux (max 1 (numQuestions / mats.length)) mats).2.1,
          (runGenAux (max 1 (numQuestions / mats.length)) mats).2.2,
          ?_, ?_, ?_, ?_⟩
  · rw [generate_questions_from_materials, if_neg (by simp)]
  · exact runGenAux_requests _ mats
  · exact runGenAux_requests_length _ mats
  · exact runGenAux_total _ mats

/-- A material whose generation succeeds with two questions. -/
def matOk : MatGenEnv :=
  { found := true, content := ['x'], genOutcome := .ok [fallbackMcq, fallbackMcq],
    saveFailAt := none }

/-- A material whose generation raises. -/
def matFail : MatGenEnv :=
  { found := true, content := ['x'], genOutcome := .error (), saveFailAt := none }

/-- Witness for `C8_per_material_generation`: five questions requested from
two materials, one of which throws during generation. -/
theorem C8_per_material_generation_witness :
    ∃ reqs total persisted,
      generate_questions_from_materials true 5 [matFail, matOk] =
        .ok (reqs, total, persisted) ∧
      (∀ r ∈ reqs, r = max 1 (5 / [matFail, matOk].length)) ∧
      reqs.length =
        ([matFail, matOk].filter (fun m => m.found && !m.content.isEmpty)).length ∧
      total = persisted.length :=
  C8_per_material_generation 5 [matFail, matOk] (List.cons_ne_nil _ _)

/-! ## Chunker (`TextProcessor._chunk_by_semantic`) -/

/-- The inner loop of `_chunk_by_semantic` that splits a sentence longer
than `max_chunk_size` into word-packed chunks.  `temp` is `temp_chunk`,
`size` is `temp_size`. -/
def wordCore (max : Nat) : List (List Char) → List (List Char) → Nat → List (List Char)
  | [], temp, _ => if temp.isEmpty then [] else [joinSpace temp]
  | w :: ws, temp, size =>
    if size + (w.length + 1) > max then
      (if temp.isEmpty then [] else [joinSpace temp]) ++ wordCore max ws [w] (w.length + 1)
    else
      wordCore max ws (temp ++ [w]) (size + (w.length + 1))

/-- The sentence loop of `_chunk_by_semantic`.  `cur` is `current_chunk`,
`size` is `current_chunk_size`; the trailing flush is the `[]` case. -/
def chunkCore (max : Nat) : List (List Char) → List (List Char) → Nat → List (List Char)
  | [], cur, _ => if cur.isEmpty then [] else [joinSpace cur]
  | s :: ss, cur, size =>
    if s.length > max then
      (if cur.isEmpty then [] else [joinSpace cur]) ++
        wordCore max (splitWs s) [] 0 ++ chunkCore max ss [] 0
    else if size + s.length + 1 ≤ max then
      chunkCore max ss (cur ++ [s]) (size + s.length + 1)
    else
      (if cur.isEmpty then [] else [joinSpace cur]) ++ chunkCore max ss [s] s.length

/-- `TextProcessor._chunk_by_semantic`, as a function of the sentence list
produced by `sent_tokenize` (external to the repository). -/
def chunkBySemantic (max : Nat) (sentences : List (List Char)) : List (List Char) :=
  chunkCore max sentences [] 0

/-- `TextProcessor.chunk_text` with its default `max_chunk_size = 1000`
(the `overlap` parameter is accepted but unused by the source). -/
def chunk_text (sentences : List (List Char)) : List (List Char) :=
  chunkBySemantic 1000 sentences

@[simp] theorem nonWs_nil : nonWs [] = [] := rfl

theorem nonWs_joinSpace (parts : List (List Char)) :
    nonWs (joinSpace parts) = nonWs parts.flatten := by
  induction parts with
  | nil => rfl
  | cons p ps ih =>
    cases ps with
    | nil => simp [joinSpace]
    | cons q qs =>
      have hj : joinSpace (p :: q :: qs) = p ++ ' ' :: joinSpace (q :: qs) := rfl
      rw [hj, nonWs_append, nonWs_cons_ws ' ' _ (by decide), ih]
      simp [nonWs_append]

theorem nonWs_idem (cs : List Char) : nonWs (nonWs cs) = nonWs cs := by
  apply List.filter_eq_self.mpr
  intro a ha
  exact (List.mem_filter.mp ha).2

/-- The flushed form of a (possibly empty) buffer contributes exactly the
buffer's non-whitespace characters. -/
theorem flush_flatten_nonWs (xs : List (List Char)) :
    nonWs ((if xs.isEmpty then ([] : List (List Char)) else [joinSpace xs]).flatten) =
      nonWs xs.flatten := by
  split
  · next h =>
    rw [List.isEmpty_eq_true] at h
    subst h
    rfl
  · simp [nonWs_joinSpace]

theorem wordCore_nonWs (max : Nat) :
    ∀ ws temp size,
      nonWs ((wordCore max ws temp size).flatten) =
        nonWs temp.flatten ++ nonWs ws.flatten := by
  intro ws
  induction ws with
  | nil =>
    intro temp size
    rw [wordCore, flush_flatten_nonWs]
    simp
  | cons w ws ih =>
    intro temp size
    rw [wordCore]
    by_cases hover : size + (w.length + 1) > max
    · rw [if_pos hover, List.flatten_append, nonWs_append, flush_flatten_nonWs, ih]
      simp [nonWs_append]
    · rw [if_neg hover, ih]
      simp [nonWs_append]

theorem chunkCore_nonWs (max : Nat) :
    ∀ ss cur size,
      nonWs ((chunkCore max ss cur size).flatten) =
        nonWs cur.flatten ++ nonWs ss.flatten := by
  intro ss
  induction ss with
  | nil =>
    intro cur size
    rw [chunkCore, flush_flatten_nonWs]
    simp
  | cons s ss ih =>
    intro cur size
    rw [chunkCore]
    by_cases hlong : s.length > max
    · rw [if_pos hlong, List.flatten_append, List.flatten_append, nonWs_append,
          nonWs_append, ih, flush_flatten_nonWs, wordCore_nonWs]
      have hs : nonWs ((splitWs s).flatten) = nonWs s := by
        rw [join_splitWs]
        exact nonWs_idem s
      simp [hs, nonWs_append]
    · rw [if_neg hlong]
      by_cases hfit : size + s.length + 1 ≤ max
      · rw [if_pos hfit, ih]
        simp [nonWs_append]
      · rw [if_neg hfit, List.flatten_append, nonWs_append, ih, flush_flatten_nonWs]
        simp [nonWs_append]

/-! ## Claim C4: chunk coverage -/

/-- C4: concatenating all chunks and discarding whitespace reproduces
exactly the non-whitespace characters of the input, in order — no
duplication, no loss.  The sentence tokenizer is external; the hypothesis
states the (true) property of `sent_tokenize` that the concatenated
sentences carry exactly the input's non-whitespace characters. -/
theorem C4_chunk_coverage (max : Nat) (text : List Char)
    (sentences : List (List Char))
    (hsent : nonWs sentences.flatten = nonWs text) :
    nonWs ((chunkBySemantic max sentences).flatten) = nonWs text := by
  rw [chunkBySemantic, chunkCore_nonWs, hsent]
  rfl

/-- Witness for `C4_chunk_coverage` at a concrete text. -/
theorem C4_chunk_coverage_witness :
    nonWs ((chunkBySemantic 5 [['a','b'], ['c','d']]).flatten) =
      nonWs "ab cd".data :=
  C4_chunk_coverage 5 "ab cd".data [['a','b'], ['c','d']] (by decide)

/-! ## Claim C5: chunk size bound -/

theorem joinSpace_singleton (w : List Char) : joinSpace [w] = w := rfl

theorem joinSpace_append_singleton (xs : List (List Char)) (w : List Char) :
    joinSpace (xs ++ [w]) =
      if xs.isEmpty then w else joinSpace xs ++ ' ' :: w := by
  induction xs with
  | nil => rfl
  | cons p ps ih =>
    cases ps with
    | nil => rfl
    | cons q qs =>
      have h1 : joinSpace ((p :: q :: qs) ++ [w]) =
          p ++ ' ' :: joinSpace ((q :: qs) ++ [w]) := rfl
      have h2 : joinSpace (p :: q :: qs) = p ++ ' ' :: joinSpace (q :: qs) := rfl
      rw [h1, ih, h2]
      simp

/-- Flushing the word buffer yields a chunk within the bound, or a single
over-long word from `words0`. -/
theorem flush_word_bound (max : Nat) (words0 : List (List Char))
    (temp : List (List Char)) (size : Nat)
    (htemp : ∀ w ∈ temp, w ∈ words0)
    (hinv : (temp = [] ∧ size = 0) ∨ (temp ≠ [] ∧ size = (joinSpace temp).length + 1))
    (hcap : size ≤ max ∨ ∃ w, temp = [w]) :
    ∀ chunk ∈ (if temp.isEmpty then ([] : List (List Char)) else [joinSpace temp]),
      chunk.length ≤ max ∨ (chunk ∈ words0 ∧ max < chunk.length) := by
  intro chunk hc
  split at hc
  · simp at hc
  · next hne =>
    rw [List.mem_singleton] at hc
    subst hc
    rcases hinv with ⟨he, _⟩ | ⟨_, hsz⟩
    · subst he
      simp at hne
    · by_cases hL : (joinSpace temp).length ≤ max
      · exact Or.inl hL
      · rcases hcap with hle | ⟨w, hw⟩
        · omega
        · subst hw
          rw [joinSpace_singleton] at hL ⊢
          exact Or.inr ⟨htemp w (List.mem_singleton.mpr rfl), by omega⟩

theorem wordCore_bound (max : Nat) (words0 : List (List Char)) :
    ∀ ws temp size,
      (∀ w ∈ ws, w ∈ words0) →
      (∀ w ∈ temp, w ∈ words0) →
      ((temp = [] ∧ size = 0) ∨ (temp ≠ [] ∧ size = (joinSpace temp).length + 1)) →
      (size ≤ max ∨ ∃ w, temp = [w]) →
      ∀ chunk ∈ wordCore max ws temp size,
        chunk.length ≤ max ∨ (chunk ∈ words0 ∧ max < chunk.length) := by
  intro ws
  induction ws with
  | nil =>
    intro temp size _ htemp hinv hcap chunk hc
    rw [wordCore] at hc
    exact flush_word_bound max words0 temp size htemp hinv hcap chunk hc
  | cons w ws ih =>
    intro temp size hws htemp hinv hcap chunk hc
    have hw0 : w ∈ words0 := hws w (List.mem_cons_self w ws)
    have hws' : ∀ v ∈ ws, v ∈ words0 := fun v hv => hws v (List.mem_cons_of_mem w hv)
    rw [wordCore] at hc
    by_cases hover : size + (w.length + 1) > max
    · rw [if_pos hover] at hc
      rcases List.mem_append.mp hc with hc | hc
      · exact flush_word_bound max words0 temp size htemp hinv hcap chunk hc
      · refine ih [w] (w.length + 1) hws' ?_ ?_ ?_ chunk hc
        · intro v hv
          rw [List.mem_singleton] at hv
          subst hv
          exact hw0
        · right
          exact ⟨by simp, by rw [joinSpace_singleton]⟩
        · exact Or.inr ⟨w, rfl⟩
    · rw [if_neg hover] at hc
      refine ih (temp ++ [w]) (size + (w.length + 1)) hws' ?_ ?_ ?_ chunk hc
      · intro v hv
        rcases List.mem_append.mp hv with hv | hv
        · exact htemp v hv
        · rw [List.mem_singleton] at hv
          subst hv
          exact hw0
      · right
        refine ⟨by simp, ?_⟩
        rw [joinSpace_append_singleton]
        rcases hinv with ⟨he, hz⟩ | ⟨hne, hsz⟩
        · subst he hz
          simp
        · rw [if_neg (by simpa [List.isEmpty_eq_true] using hne)]
          simp only [List.length_append, List.length_cons]
          omega
      · left
        omega

/-- Flushing the sentence buffer always yields a chunk within the bound:
its tracked size over-approximates the joined length and never exceeds
`max`. -/
theorem flush_sentence_bound (max : Nat) (cur : List (List Char)) (size : Nat)
    (hinv : (cur = [] ∧ size = 0) ∨
      (cur ≠ [] ∧ (joinSpace cur).length ≤ size ∧ size ≤ max)) :
    ∀ chunk ∈ (if cur.isEmpty then ([] : List (List Char)) else [joinSpace cur]),
      chunk.length ≤ max := by
  intro chunk hc
  split at hc
  · simp at hc
  · next hne =>
    rw [List.mem_singleton] at hc
    subst hc
    rcases hinv with ⟨he, _⟩ | ⟨_, hlen, hmax⟩
    · subst he
      simp at hne
    · omega

theorem chunkCore_bound (max : Nat) (sentences0 : List (List Char)) :
    ∀ ss cur size,
      (∀ s ∈ ss, s ∈ sentences0) →
      ((cur = [] ∧ size = 0) ∨
        (cur ≠ [] ∧ (joinSpace cur).length ≤ size ∧ size ≤ max)) →
      ∀ chunk ∈ chunkCore max ss cur size,
        chunk.length ≤ max ∨
        (∃ s ∈ sentences0, chunk ∈ splitWs s ∧ max < chunk.length) := by
  intro ss
  induction ss with
  | nil =>
    intro cur size _ hinv chunk hc
    rw [chunkCore] at hc
    exact Or.inl (flush_sentence_bound max cur size hinv chunk hc)
  | cons s ss ih =>
    intro cur size hss hinv chunk hc
    have hs0 : s ∈ sentences0 := hss s (List.mem_cons_self s ss)
    have hss' : ∀ t ∈ ss, t ∈ sentences0 := fun t ht => hss t (List.mem_cons_of_mem s ht)
    rw [chunkCore] at hc
    by_cases hlong : s.length > max
    · rw [if_pos hlong] at hc
      rcases List.mem_append.mp hc with hc | hc
      · rcases List.mem_append.mp hc with hc | hc
        · exact Or.inl (flush_sentence_bound max cur size hinv chunk hc)
        · have hw := wordCore_bound max (splitWs s) (splitWs s) [] 0
            (fun v hv => hv) (by simp) (Or.inl ⟨rfl, rfl⟩) (Or.inl (Nat.zero_le _))
            chunk hc
          rcases hw with hw | ⟨hmem, hlen⟩
          · exact Or.inl hw
          · exact Or.inr ⟨s, hs0, hmem, hlen⟩
      · exact ih [] 0 hss' (Or.inl ⟨rfl, rfl⟩) chunk hc
    · rw [if_neg hlong] at hc
      by_cases hfit : size + s.length + 1 ≤ max
      · rw [if_pos hfit] at hc
        refine ih (cur ++ [s]) (size + s.length + 1) hss' (Or.inr ⟨by simp, ?_, hfit⟩)
          chunk hc
        rw [joinSpace_append_singleton]
        rcases hinv with ⟨he, hz⟩ | ⟨hne, hlen, _⟩
        · subst he hz
          simp
        · rw [if_neg (by simpa [List.isEmpty_eq_true] using hne)]
          simp only [List.length_append, List.length_cons]
          omega
      · rw [if_neg hfit] at hc
        rcases List.mem_append.mp hc with hc | hc
        · exact Or.inl (flush_sentence_bound max cur size hinv chunk hc)
        · refine ih [s] s.length hss' (Or.inr ⟨by simp, ?_, by omega⟩) chunk hc
          rw [joinSpace_singleton]

/-- C5: every chunk stays within `max_chunk_size`, except a chunk that is a
single word of some sentence and is itself longer than the bound (words are
never split). -/
theorem C5_chunk_size_bound (max : Nat) (sentences : List (List Char)) :
    ∀ chunk ∈ chunkBySemantic max sentences,
      chunk.length ≤ max ∨
      (∃ s ∈ sentences, chunk ∈ splitWs s ∧ max < chunk.length) := by
  intro chunk hc
  exact chunkCore_bound max sentences sentences [] 0 (fun s hs => hs)
    (Or.inl ⟨rfl, rfl⟩) chunk hc

/-- Witness for `C5_chunk_size_bound` at a concrete input. -/
theorem C5_chunk_size_bound_witness :
    (['a','b'] : List Char).length ≤ 5 ∨
    (∃ s ∈ [['a','b'], ['c','d']], (['a','b'] : List Char) ∈ splitWs s ∧
      5 < (['a','b'] : List Char).length) :=
  C5_chunk_size_bound 5 [['a','b'], ['c','d']] ['a','b'] (by decide)

/-! ## Claim C3: `embedding_status` lifecycle
(`MaterialService.upload_material` / `process_material_for_vectors`) -/

/-- The `Material.embedding_status` values. -/
inductive EmbStatus
  | pending
  | processing
  | completed
  | failed
deriving DecidableEq, Repr

/-- Position in the claimed order `pending → processing → {completed,
failed}` (the two terminal states share a rank). -/
def statusRank : EmbStatus → Nat
  | .pending => 0
  | .processing => 1
  | .completed => 2
  | .failed => 2

/-- The Material columns the ingestion orchestrator writes. -/
structure MaterialRec where
  embedding_status : EmbStatus
  chunk_count : Option Nat := none
  chroma_collection_id : Option String := none
  error_message : Option String := none
deriving DecidableEq, Repr

/-- What text extraction observes for one run: the file type is
unsupported, extraction raises, or it yields text (with the sentence list
its tokenization produces for the chunker). -/
inductive ExtractOutcome
  | unsupported
  | raised (msg : String)
  | ok (text : List Char) (sentences : List (List Char))
deriving DecidableEq, Repr

/-- The external effects of one `process_material_for_vectors` run. -/
structure ProcessEnv where
  extract : ExtractOutcome
  /-- whether `vector_service.store_document` succeeds (otherwise it raises
  into the `except` block). -/
  storeOk : Bool
  /-- the fresh `material_{id}_{uuid}` collection name. -/
  newCollectionId : String
deriving DecidableEq, Repr

/-- Result of a run: the Python return value, the final Material record,
and the `embedding_status` values committed, in commit order. -/
structure ProcResult where
  returned : Bool
  material : MaterialRec
  commits : List EmbStatus
deriving DecidableEq, Repr

/-- Shallow embedding of `MaterialService.process_material_for_vectors`. -/
def process_material_for_vectors (hasServices : Bool) (env : ProcessEnv)
    (m : MaterialRec) : ProcResult :=
  if ¬ hasServices then ⟨false, m, []⟩
  else
    let m1 := { m with embedding_status := EmbStatus.processing }
    match env.extract with
    | .unsupported =>
      ⟨false,
       { m1 with
           embedding_status := .failed
           error_message := some "Unsupported file type for vector processing" },
       [.processing, .failed]⟩
    | .raised msg =>
      ⟨false, { m1 with embedding_status := .failed, error_message := some msg },
       [.processing, .failed]⟩
    | .ok text sentences =>
      if isBlank text then
        ⟨false,
         { m1 with
             embedding_status := .failed
             error_message := some "No text content could be extracted from the document" },
         [.processing, .failed]⟩
      else
        let chunks := chunk_text sentences
        if chunks.isEmpty then
          ⟨false,
           { m1 with
               embedding_status := .failed
               error_message := some "Failed to create text chunks" },
           [.processing, .failed]⟩
        else
          let m2 := if m1.chroma_collection_id = none
            then { m1 with chroma_collection_id := some env.newCollectionId }
            else m1
          if env.storeOk then
            ⟨true,
             { m2 with
                 chunk_count := some chunks.length
                 embedding_status := .completed },
             [.processing, .completed]⟩
          else
            ⟨false,
             { m2 with
                 embedding_status := .failed
                 error_message := some "store_document raised" },
             [.processing, .failed]⟩

/-- The external effects of one `upload_material` run (after the file is
saved and the record created). -/
structure UploadEnv where
  /-- `_process_pdf` (or any step of the `try` before vector processing)
  raises. -/
  pdfFails : Bool
  /-- both `vector_service` and `text_processor` are configured. -/
  hasServices : Bool
  procEnv : ProcessEnv
deriving DecidableEq, Repr

/-- Result of `upload_material`: final record, committed statuses in
order, and whether the exception was re-raised to the caller. -/
structure UploadResult where
  material : MaterialRec
  commits : List EmbStatus
  raised : Bool
deriving DecidableEq, Repr

/-- Shallow embedding of `MaterialService.upload_material`: the record is
created (and committed) with `embedding_status = "processing"`, then either
processing fails and the status becomes `failed` (re-raising), or vector
processing runs, or — with no vector services configured — the status is
set **back** to `pending`. -/
def upload_material (env : UploadEnv) : UploadResult :=
  let m0 : MaterialRec := { embedding_status := EmbStatus.processing }
  if env.pdfFails then
    ⟨{ m0 with
         embedding_status := .failed
         error_message := some "processing error" },
     [.processing, .failed], true⟩
  else if env.hasServices then
    let r := process_material_for_vectors true env.procEnv m0
    ⟨r.material, .processing :: r.commits, false⟩
  else
    ⟨{ m0 with embedding_status := .pending }, [.processing, .pending], false⟩

/-- A processing environment that extracts text successfully but fails at
the vector-store write. -/
def envOkStoreFail : ProcessEnv :=
  { extract := .ok ['h','i'] [['h','i']], storeOk := false, newCollectionId := "col1" }

/-- C3 counterexample: (a) uploading with no vector services configured
commits `processing` and then moves the record **back** to `pending`;
(b) re-processing a `completed` material first resets it to `processing`;
(c) `chroma_collection_id` is assigned before the vector-store write and
therefore survives on a run that ends `failed`. -/
theorem C3_counterexample :
    (upload_material ⟨false, false, ⟨.unsupported, true, "c"⟩⟩).commits =
      [EmbStatus.processing, EmbStatus.pending] ∧
    statusRank EmbStatus.pending < statusRank EmbStatus.processing ∧
    (process_material_for_vectors true envOkStoreFail
        { embedding_status := EmbStatus.completed }).commits.head? =
      some EmbStatus.processing ∧
    statusRank EmbStatus.processing < statusRank EmbStatus.completed ∧
    (process_material_for_vectors true envOkStoreFail
        { embedding_status := EmbStatus.pending }).material.embedding_status =
      EmbStatus.failed ∧
    (process_material_for_vectors true envOkStoreFail
        { embedding_status := EmbStatus.pending }).material.chroma_collection_id =
      some "col1" := by
  refine ⟨by decide, by decide, by decide, by decide, by decide, by decide⟩

/-- C3 (amended): one `process_material_for_vectors` run commits either
nothing (services unconfigured) or exactly `processing` followed by
`completed` or `failed` — so after the initial reset to `processing`
(which may move an already-`completed`/`failed` record backward) statuses
only move forward; `chunk_count` is assigned only on a successful
completion (`chroma_collection_id`, by contrast, may be assigned on a
failing run); and `upload_material` commits `processing` first and may
downgrade it to `pending` when the vector services are unconfigured. -/
theorem C3_status_lifecycle (hasServices : Bool) (env : ProcessEnv)
    (m : MaterialRec) (uenv : UploadEnv) :
    ((process_material_for_vectors hasServices env m).commits = [] ∨
     (process_material_for_vectors hasServices env m).commits =
       [EmbStatus.processing, EmbStatus.completed] ∨
     (process_material_for_vectors hasServices env m).commits =
       [EmbStatus.processing, EmbStatus.failed]) ∧
    ((process_material_for_vectors hasServices env m).material.chunk_count ≠
        m.chunk_count →
      (process_material_for_vectors hasServices env m).returned = true ∧
      (process_material_for_vectors hasServices env m).material.embedding_status =
        EmbStatus.completed) ∧
    (hasServices = true →
      ((process_material_for_vectors hasServices env m).returned = true ↔
       (process_material_for_vectors hasServices env m).material.embedding_status =
         EmbStatus.completed)) ∧
    ((upload_material uenv).commits = [EmbStatus.processing, EmbStatus.failed] ∨
     (upload_material uenv).commits = [EmbStatus.processing, EmbStatus.pending] ∨
     (upload_material uenv).commits =
       [EmbStatus.processing, EmbStatus.processing, EmbStatus.completed] ∨
     (upload_material uenv).commits =
       [EmbStatus.processing, EmbStatus.processing, EmbStatus.failed]) := by
  have hmain : ∀ (hs : Bool) (env' : ProcessEnv) (m' : MaterialRec),
      ((process_material_for_vectors hs env' m').commits = [] ∨
       (process_material_for_vectors hs env' m').commits =
         [EmbStatus.processing, EmbStatus.completed] ∨
       (process_material_for_vectors hs env' m').commits =
         [EmbStatus.processing, EmbStatus.failed]) ∧
      ((process_material_for_vectors hs env' m').material.chunk_count ≠
          m'.chunk_count →
        (process_material_for_vectors hs env' m').returned = true ∧
        (process_material_for_vectors hs env' m').material.embedding_status =
          EmbStatus.completed) ∧
      (hs = true →
        ((process_material_for_vectors hs env' m').returned = true ↔
         (process_material_for_vectors hs env' m').material.embedding_status =
           EmbStatus.completed)) := by
    intro hs env' m'
    obtain ⟨ext, storeOk, ncid⟩ := env'
    cases hs with
    | false =>
      refine ⟨Or.inl rfl, ?_, ?_⟩
      · intro h
        exact absurd rfl h
      · intro h
        exact absurd h (by decide)
    | true =>
      cases ext with
      | unsupported =>
        refine ⟨Or.inr (Or.inr rfl), fun h => absurd rfl h, fun _ => ?_⟩
        simp [process_material_for_vectors]
      | raised msg =>
        refine ⟨Or.inr (Or.inr rfl), fun h => absurd rfl h, fun _ => ?_⟩
        simp [process_material_for_vectors]
      | ok text sentences =>
        rw [process_material_for_vectors, if_neg (by simp)]
        simp only
        split_ifs with hblank hchunks hstore hchroma hchroma
        · exact ⟨Or.inr (Or.inr rfl), fun h => absurd rfl h, fun _ => by simp⟩
        · exact ⟨Or.inr (Or.inr rfl), fun h => absurd rfl h, fun _ => by simp⟩
        · exact ⟨Or.inr (Or.inl rfl), fun _ => ⟨rfl, rfl⟩, fun _ => by simp⟩
        · exact ⟨Or.inr (Or.inl rfl), fun _ => ⟨rfl, rfl⟩, fun _ => by simp⟩
        · exact ⟨Or.inr (Or.inr rfl), fun h => absurd rfl h, fun _ => by simp⟩
        · exact ⟨Or.inr (Or.inr rfl), fun h => absurd rfl h, fun _ => by simp⟩
  obtain ⟨h1, h2, h3⟩ := hmain hasServices env m
  refine ⟨h1, h2, h3, ?_⟩
  obtain ⟨pdfFails, hsrv, penv⟩ := uenv
  cases pdfFails with
  | true => exact Or.inl rfl
  | false =>
    cases hsrv with
    | false => exact Or.inr (Or.inl rfl)
    | true =>
      have := (hmain true penv { embedding_status := EmbStatus.processing }).1
      rw [upload_material]
      simp only [if_neg (by decide : ¬ (false = true)), if_pos rfl]
      rcases this with h | h | h
      · exfalso
        rw [process_material_for_vectors, if_neg (by simp)] at h
        revert h
        cases penv.extract <;> simp <;> split_ifs <;> simp
      · right; right; left
        simp [h]
      · right; right; right
        simp [h]

/-- Witness for `C3_status_lifecycle` at a concrete run. -/
theorem C3_status_lifecycle_witness :
    (process_material_for_vectors true envOkStoreFail
        { embedding_status := EmbStatus.pending }).commits = [] ∨
    (process_material_for_vectors true envOkStoreFail
        { embedding_status := EmbStatus.pending }).commits =
      [EmbStatus.processing, EmbStatus.completed] ∨
    (process_material_for_vectors true envOkStoreFail
        { embedding_status := EmbStatus.pending }).commits =
      [EmbStatus.processing, EmbStatus.failed] :=
  (C3_status_lifecycle true envOkStoreFail { embedding_status := EmbStatus.pending }
    ⟨false, true, envOkStoreFail⟩).1
